import Mathlib

/-!
# clic: a command-output cache

A shallow embedding of `db.go` (the SQLite-backed store) and of `getOrRun`
and the clean-up cutoff of `main.go`, together with the parts of the Go
standard library they rely on (`fmt.Sprintf("%#v", ...)` on a `[]string`,
`strconv.Quote`, `utf8.DecodeRuneInString`, `time.Time.Sub/Add/Unix`).

Go strings are byte sequences; a pointer that may be nil is an `Option`;
a run-time panic is an explicit outcome.
-/

namespace Clic

/-! ## Go strings -/

/-- A byte. -/
abbrev Byte := Fin 256

/-- A Go `string`: an arbitrary sequence of bytes. -/
abbrev GoString := List Byte

/-- The Go string of an ASCII literal. -/
def ascii (s : String) : GoString := s.toList.map (fun c => Fin.ofNat c.toNat)

/-- A Go `[]string`: `none` is the nil slice, `some l` a non-nil slice. -/
abbrev StringSlice := Option (List GoString)

/-! ## UTF-8 decoding and encoding (`unicode/utf8`)

Runes are natural numbers: every rune handled here comes out of the decoder
and is non-negative. -/

/-- Go `byte(n)`: conversion to a byte keeps the low eight bits. -/
def toByte (n : Nat) : Byte := ⟨n % 256, Nat.mod_lt _ (by decide)⟩

/-- Go `utf8.RuneError`. -/
def RuneError : Nat := 0xFFFD
/-- Go `utf8.RuneSelf`. -/
def RuneSelf : Nat := 0x80
/-- Go `utf8.MaxRune`. -/
def MaxRune : Nat := 0x10FFFF
/-- Go `utf8.surrogateMin`. -/
def surrogateMin : Nat := 0xD800
/-- Go `utf8.surrogateMax`. -/
def surrogateMax : Nat := 0xDFFF

/-- Go `utf8.first`: information about the first byte of an encoding
(`as = 0xF0` ASCII, `xx = 0xF1` invalid, otherwise accept-range index in the
high nibble and size in the low one). -/
def first (b : Nat) : Nat :=
  if b < 0x80 then 0xF0
  else if b < 0xC2 then 0xF1
  else if b < 0xE0 then 0x02
  else if b = 0xE0 then 0x13
  else if b < 0xED then 0x03
  else if b = 0xED then 0x23
  else if b < 0xF0 then 0x03
  else if b = 0xF0 then 0x34
  else if b < 0xF4 then 0x04
  else if b = 0xF4 then 0x44
  else 0xF1

/-- Go `utf8.acceptRanges`: the range `(lo, hi)` allowed for the second byte. -/
def acceptRanges (i : Nat) : Nat × Nat :=
  match i with
  | 0 => (0x80, 0xBF)
  | 1 => (0xA0, 0xBF)
  | 2 => (0x80, 0x9F)
  | 3 => (0x90, 0xBF)
  | 4 => (0x80, 0x8F)
  | _ => (0, 0)

/-- Go `utf8.DecodeRuneInString`: the first rune of `s` and its width in bytes;
`(RuneError, 1)` for an invalid encoding, `(RuneError, 0)` for the empty string. -/
def DecodeRuneInString (s : GoString) : Nat × Nat :=
  match s with
  | [] => (RuneError, 0)
  | s0 :: t0 =>
    let x := first s0.val
    if x ≥ 0xF0 then
      -- `mask := rune(x) << 31 >> 31` is all ones exactly when `x` is odd (`xx`)
      (if x % 2 = 1 then RuneError else s0.val, 1)
    else
      let sz := x &&& 7
      let accept := acceptRanges (x >>> 4)
      if s.length < sz then (RuneError, 1)
      else
        match t0 with
        | [] => (RuneError, 1)
        | s1 :: t1 =>
          if s1.val < accept.1 ∨ accept.2 < s1.val then (RuneError, 1)
          else if sz ≤ 2 then ((s0.val &&& 0x1F) <<< 6 ||| (s1.val &&& 0x3F), 2)
          else
            match t1 with
            | [] => (RuneError, 1)
            | s2 :: t2 =>
              if s2.val < 0x80 ∨ 0xBF < s2.val then (RuneError, 1)
              else if sz ≤ 3 then
                ((s0.val &&& 0x0F) <<< 12 ||| (s1.val &&& 0x3F) <<< 6 ||| (s2.val &&& 0x3F), 3)
              else
                match t2 with
                | [] => (RuneError, 1)
                | s3 :: _ =>
                  if s3.val < 0x80 ∨ 0xBF < s3.val then (RuneError, 1)
                  else
                    ((s0.val &&& 0x07) <<< 18 ||| (s1.val &&& 0x3F) <<< 12 |||
                      (s2.val &&& 0x3F) <<< 6 ||| (s3.val &&& 0x3F), 4)

/-- Go `utf8.ValidRune`. -/
def ValidRune (r : Nat) : Bool :=
  (decide (r < surrogateMin)) || (decide (surrogateMax < r) && decide (r ≤ MaxRune))

/-- Go `utf8.AppendRune(nil, r)`: the UTF-8 encoding of `r`. -/
def AppendRune (r : Nat) : GoString :=
  if r ≤ 0x7F then [toByte r]
  else if r ≤ 0x7FF then
    [toByte (0xC0 ||| (toByte (r >>> 6)).val), toByte (0x80 ||| ((toByte r).val &&& 0x3F))]
  else
    let r3 := if r > MaxRune ∨ (surrogateMin ≤ r ∧ r ≤ surrogateMax) then RuneError else r
    if r > MaxRune ∨ (surrogateMin ≤ r ∧ r ≤ surrogateMax) ∨ r ≤ 0xFFFF then
      [toByte (0xE0 ||| (toByte (r3 >>> 12)).val),
       toByte (0x80 ||| ((toByte (r3 >>> 6)).val &&& 0x3F)),
       toByte (0x80 ||| ((toByte r3).val &&& 0x3F))]
    else
      [toByte (0xF0 ||| (toByte (r >>> 18)).val),
       toByte (0x80 ||| ((toByte (r >>> 12)).val &&& 0x3F)),
       toByte (0x80 ||| ((toByte (r >>> 6)).val &&& 0x3F)),
       toByte (0x80 ||| ((toByte r).val &&& 0x3F))]

/-! ## Quoting (`strconv`) and `%#v` (`fmt`) -/

/-- Go `strconv.lowerhex = "0123456789abcdef"`, indexed. -/
def lowerhex (i : Nat) : Byte := (ascii "0123456789abcdef").getD i 0

section Quote

-- Go `strconv.IsPrint` is decided by the Unicode tables of the Go release in
-- use; it is a parameter here, and the development holds for any such table.
variable (IsPrint : Nat → Bool)

/-- The bytes Go `strconv.appendEscapedRune(buf, r, '"', false, false)` appends
to `buf`: every branch of that function is one `append(buf, ...)`. -/
def escapedRune (r : Nat) : GoString :=
  if r = 0x22 ∨ r = 0x5C then [0x5C, toByte r]
  else if IsPrint r then AppendRune r
  else if r = 0x07 then [0x5C, 0x61]
  else if r = 0x08 then [0x5C, 0x62]
  else if r = 0x0C then [0x5C, 0x66]
  else if r = 0x0A then [0x5C, 0x6E]
  else if r = 0x0D then [0x5C, 0x72]
  else if r = 0x09 then [0x5C, 0x74]
  else if r = 0x0B then [0x5C, 0x76]
  else if r < 0x20 ∨ r = 0x7F then
    [0x5C, 0x78, lowerhex ((toByte r).val >>> 4), lowerhex ((toByte r).val &&& 0xF)]
  else
    let r1 := if !ValidRune r then 0xFFFD else r
    if !ValidRune r ∨ r < 0x10000 then
      [0x5C, 0x75, lowerhex (r1 >>> 12 &&& 0xF), lowerhex (r1 >>> 8 &&& 0xF),
        lowerhex (r1 >>> 4 &&& 0xF), lowerhex (r1 >>> 0 &&& 0xF)]
    else
      [0x5C, 0x55, lowerhex (r >>> 28 &&& 0xF), lowerhex (r >>> 24 &&& 0xF),
        lowerhex (r >>> 20 &&& 0xF), lowerhex (r >>> 16 &&& 0xF), lowerhex (r >>> 12 &&& 0xF),
        lowerhex (r >>> 8 &&& 0xF), lowerhex (r >>> 4 &&& 0xF), lowerhex (r >>> 0 &&& 0xF)]

/-- Go `strconv.appendEscapedRune(buf, r, '"', false, false)`. -/
def appendEscapedRune (buf : GoString) (r : Nat) : GoString := buf ++ escapedRune IsPrint r

/-- The loop of Go `strconv.appendQuotedWith`:
`for width := 0; len(s) > 0; s = s[width:] { ... }`. Every iteration removes
at least one byte, so `len(s)` iterations always suffice; `fuel` bounds them. -/
def quoteLoop (fuel : Nat) (buf : GoString) (s : GoString) : GoString :=
  match fuel with
  | 0 => buf
  | fuel + 1 =>
    match s with
    | [] => buf
    | s0 :: _ =>
      let rw := if s0.val ≥ RuneSelf then DecodeRuneInString s else (s0.val, 1)
      if rw.2 = 1 ∧ rw.1 = RuneError then
        quoteLoop fuel
          (buf ++ [0x5C, 0x78, lowerhex (s0.val >>> 4), lowerhex (s0.val &&& 0xF)])
          (s.drop rw.2)
      else quoteLoop fuel (appendEscapedRune IsPrint buf rw.1) (s.drop rw.2)

/-- Go `strconv.appendQuotedWith(buf, s, '"', false, false)`, which is
`strconv.AppendQuote(buf, s)`. -/
def appendQuotedWith (buf : GoString) (s : GoString) : GoString :=
  quoteLoop IsPrint s.length (buf ++ [0x22]) s ++ [0x22]

/-- The loop of `fmt`'s `printValue` over a slice under `%#v`:
`if i > 0 { write(", ") }; printValue(elem)`, where a string element is
written by `fmtQ`, that is `strconv.AppendQuote`. -/
def printElems (buf : GoString) (i : Nat) : List GoString → GoString
  | [] => buf
  | e :: t =>
    printElems (appendQuotedWith IsPrint (if i > 0 then buf ++ ascii ", " else buf) e) (i + 1) t

/-- Go `fmt.Sprintf("%#v", cmd)` for `cmd []string`: the type name, then
`(nil)` for a nil slice, otherwise the quoted elements between braces. -/
def SprintfSharpV (cmd : StringSlice) : GoString :=
  match cmd with
  | none => ascii "[]string" ++ ascii "(nil)"
  | some l => printElems IsPrint (ascii "[]string" ++ ascii "\x7b") 0 l ++ ascii "\x7d"

end Quote

/-! ## Reading a quoted string back

The reader below undoes `appendQuotedWith`; it is the tool by which the cache
key is shown to determine the argument vector. -/

/-- The value of a lower-case hexadecimal digit. -/
def hexval (b : Byte) : Nat :=
  if 0x30 ≤ b.val ∧ b.val ≤ 0x39 then b.val - 0x30 else b.val - 0x61 + 10

/-- The byte a one-letter escape stands for; `\\` and `\"` stand for themselves. -/
def unescapeChar (c : Byte) : Byte :=
  if c = 0x61 then 0x07
  else if c = 0x62 then 0x08
  else if c = 0x66 then 0x0C
  else if c = 0x6E then 0x0A
  else if c = 0x72 then 0x0D
  else if c = 0x74 then 0x09
  else if c = 0x76 then 0x0B
  else c

/-- Where the reader stands inside a quoted string. -/
inductive ReadMode where
  /-- between escapes -/
  | normal
  /-- right after a backslash -/
  | escape
  /-- inside `\x` (`isRune = false`), `\u` or `\U` (`isRune = true`): the number
  of digits still to read and the value read so far -/
  | hex (isRune : Bool) (left : Nat) (acc : Nat)
deriving DecidableEq, Repr

/-- Reads the inside of a quoted string, byte by byte, up to the closing quote:
the string denoted and the input left after the quote. -/
def unquoteBody : ReadMode → List Byte → Option (GoString × List Byte)
  | _, [] => none
  | .normal, b :: rest =>
    if b = 0x22 then some ([], rest)
    else if b = 0x5C then unquoteBody .escape rest
    else (unquoteBody .normal rest).map (fun p => (b :: p.1, p.2))
  | .escape, c :: rest =>
    if c = 0x78 then unquoteBody (.hex false 2 0) rest
    else if c = 0x75 then unquoteBody (.hex true 4 0) rest
    else if c = 0x55 then unquoteBody (.hex true 8 0) rest
    else (unquoteBody .normal rest).map (fun p => (unescapeChar c :: p.1, p.2))
  | .hex isRune left acc, h :: rest =>
    if left ≤ 1 then
      (unquoteBody .normal rest).map
        (fun p => ((if isRune then AppendRune (acc * 16 + hexval h)
                    else [toByte (acc * 16 + hexval h)]) ++ p.1, p.2))
    else unquoteBody (.hex isRune (left - 1) (acc * 16 + hexval h)) rest

/-! ## The store (`db.go`) -/

/-- One row of `cache (id TEXT NOT NULL PRIMARY KEY, value TEXT, timestamp INTEGER)`. -/
structure Row where
  id : GoString
  value : GoString
  timestamp : Int
deriving DecidableEq, Repr

/-- The content of the database file, as far as the program can observe it. -/
inductive DB where
  /-- the file is not a usable SQLite database: every statement fails -/
  | unusable
  /-- a database without a `cache` table -/
  | noTable
  /-- a database whose `cache` table holds these rows -/
  | table (rows : List Row)
deriving DecidableEq, Repr

/-- The errors SQLite / `database/sql` report to the program. -/
inductive SqlError where
  | notADatabase
  | noSuchTable
  | tableExists
  | uniqueConstraint
  | noRows
deriving DecidableEq, Repr

/-- The text of `err.Error()` for the driver's errors. -/
def SqlError.Error : SqlError → String
  | .notADatabase => "file is not a database"
  | .noSuchTable => "no such table: cache"
  | .tableExists => "table cache already exists"
  | .uniqueConstraint => "UNIQUE constraint failed: cache.id"
  | .noRows => "sql: no rows in result set"

/-- A Go `error` built by `fmt.Errorf`: its message, and the error it wraps
(`%w`), which is what `errors.Unwrap` returns; `none` when nothing is wrapped. -/
structure GoError where
  msg : String
  wrapped : Option SqlError
deriving DecidableEq, Repr

/-- Go `fmt.Errorf(text)` without a `%w` verb. -/
def errorf (text : String) : GoError := ⟨text, none⟩

/-- Go `fmt.Errorf(text + ": %w", err)`. -/
def errorfW (text : String) (err : SqlError) : GoError := ⟨text ++ ": " ++ err.Error, some err⟩

/-- Whether `p` is a prefix of `s`. -/
def hasPrefixChars : List Char → List Char → Bool
  | _, [] => true
  | [], _ :: _ => false
  | a :: s, b :: p => a == b && hasPrefixChars s p

/-- Whether `p` occurs in `s`. -/
def containsChars : List Char → List Char → Bool
  | [], p => p.isEmpty
  | a :: s, p => hasPrefixChars (a :: s) p || containsChars s p

/-- Go `strings.Contains`. -/
def stringsContains (s substr : String) : Bool := containsChars s.toList substr.toList

/-- The result of a call that may panic instead of returning. -/
inductive Res (α : Type) where
  | val (a : α)
  | panic
deriving DecidableEq, Repr

/-- The `*sql.DB` a handler holds. -/
inductive SqlDB where
  | conn
deriving DecidableEq, Repr

/-- Go `type sqlHandler struct { db *sql.DB }`; `db = none` is the nil pointer. -/
structure sqlHandler where
  db : Option SqlDB
deriving DecidableEq, Repr

/-- Go `dbOpen`: `sql.Open` only records the data source, it does not touch the
file, so for the registered driver it returns a handler and no error. -/
def dbOpen : Option sqlHandler × Option GoError := (some ⟨some .conn⟩, none)

/-- SQL `CREATE TABLE cache (...)`. -/
def execCreateTable : DB → Except SqlError DB
  | .unusable => .error .notADatabase
  | .noTable => .ok (.table [])
  | .table _ => .error .tableExists

/-- SQL `DELETE FROM cache`. -/
def execDeleteAll : DB → Except SqlError DB
  | .unusable => .error .notADatabase
  | .noTable => .error .noSuchTable
  | .table _ => .ok (.table [])

/-- SQL `DELETE FROM cache WHERE timestamp < ts`. -/
def execDeleteOlder (ts : Int) : DB → Except SqlError DB
  | .unusable => .error .notADatabase
  | .noTable => .error .noSuchTable
  | .table rows => .ok (.table (rows.filter (fun r => !decide (r.timestamp < ts))))

/-- Preparing a statement on table `cache` compiles it against the schema. -/
def prepare : DB → Except SqlError (List Row)
  | .unusable => .error .notADatabase
  | .noTable => .error .noSuchTable
  | .table rows => .ok rows

/-- SQL `SELECT value,timestamp FROM cache WHERE id = ?`, first row (`QueryRow`). -/
def queryRow (rows : List Row) (item : GoString) : Except SqlError (GoString × Int) :=
  match rows.find? (fun r => r.id == item) with
  | none => .error .noRows
  | some r => .ok (r.value, r.timestamp)

/-- SQL `INSERT INTO cache(id,value,timestamp) VALUES(?,?,?)` under the primary key. -/
def execInsert (rows : List Row) (item value : GoString) (ts : Int) : Except SqlError (List Row) :=
  if rows.any (fun r => r.id == item) then .error .uniqueConstraint
  else .ok (rows ++ [⟨item, value, ts⟩])

/-- What `UPDATE ... WHERE id = item` does to one row. -/
def updRow (item value : GoString) (ts : Int) (r : Row) : Row :=
  if r.id == item then ⟨r.id, value, ts⟩ else r

/-- SQL `UPDATE cache SET (value,timestamp) = (?,?) WHERE id = ?`, with `RowsAffected`. -/
def execUpdate (rows : List Row) (item value : GoString) (ts : Int) : List Row × Nat :=
  (rows.map (updRow item value ts), (rows.filter (fun r => r.id == item)).length)

/-! ### The operations of `db.go` -/

/-- Go `dbCreate`: the error returned and the database left behind. The deferred
`h.Close()` ends the local handler and leaves the file as it is. The error of
`CREATE TABLE` is not inspected: any failure leads to `DELETE FROM cache`. -/
def dbCreate (db : DB) : Option GoError × DB :=
  match dbOpen with
  | (_, some err) => (some err, db)
  | (_, none) =>
    match execCreateTable db with
    | .ok db1 => (none, db1)
    | .error _ =>
      match execDeleteAll db with
      | .ok db1 => (none, db1)
      | .error err => (some (errorfW "cannot create/delete DB table" err), db)

/-- Go `(s *sqlHandler) GetItem(item)`: `(value, timestamp, err)`. -/
def GetItem (s : Option sqlHandler) (db : DB) (item : GoString) :
    Res (GoString × Int × Option GoError) :=
  match s with
  | none => .val ([], 0, some (errorf "no DB file"))
  | some ⟨none⟩ => .panic
  | some ⟨some _⟩ =>
    match prepare db with
    | .error err => .val ([], 0, some (errorfW "cannot prepare query" err))
    | .ok rows =>
      match queryRow rows item with
      | .error err => .val ([], 0, some (errorfW "cannot get value" err))
      | .ok (value, ts) => .val (value, ts, none)

/-- Go `(s *sqlHandler) SetItem(item, value)`, with `ts = time.Now().Unix()`:
the error returned and the database left behind. -/
def SetItem (s : Option sqlHandler) (db : DB) (item value : GoString) (ts : Int) :
    Res (Option GoError) × DB :=
  match s with
  | none => (.val (some (errorf "no DB file")), db)
  | some ⟨none⟩ => (.panic, db)
  | some ⟨some _⟩ =>
    match prepare db with
    | .error err => (.val (some (errorfW "cannot prepare INSERT query" err)), db)
    | .ok rows =>
      match execInsert rows item value ts with
      | .ok rows1 => (.val none, .table rows1)
      | .error err =>
        if !stringsContains err.Error "UNIQUE constraint failed" then
          (.val (some (errorfW "cannot insert item" err)), db)
        else
          match prepare db with
          | .error err => (.val (some (errorfW "cannot prepare UPDATE query" err)), db)
          | .ok rows =>
            let (rows1, n) := execUpdate rows item value ts
            if n == 0 then
              (.val (some (errorf "cannot update value (no row affected)")), .table rows1)
            else (.val none, .table rows1)

/-- Go `(s *sqlHandler) Clean(ts)`: the error returned and the database left behind. -/
def Clean (s : Option sqlHandler) (db : DB) (ts : Int) : Res (Option GoError) × DB :=
  match s with
  | none => (.val (some (errorf "no DB file")), db)
  | some ⟨none⟩ => (.panic, db)
  | some ⟨some _⟩ =>
    match execDeleteOlder ts db with
    | .ok db1 => (.val none, db1)
    | .error err => (.val (some ⟨err.Error, none⟩), db)

/-- An open store: a non-nil handler whose connection has not been closed. -/
def openStore : Option sqlHandler := some ⟨some .conn⟩

/-! ## Time (`time` package)

An instant is a number of seconds since the Unix epoch and a nanosecond
offset within the second. A `Duration` is an `int64` count of nanoseconds. -/

/-- Go `time.Time`, wall-clock reading. -/
structure Time where
  sec : Int
  nsec : Int
deriving DecidableEq, Repr

/-- A well-formed instant: `0 ≤ nsec < 1e9`. -/
def Time.wf (t : Time) : Prop := 0 ≤ t.nsec ∧ t.nsec < 1000000000

instance (t : Time) : Decidable t.wf := by unfold Time.wf; infer_instance

/-- Go `time.maxDuration` (`1<<63 - 1`). -/
def maxDuration : Int := 9223372036854775807
/-- Go `time.minDuration` (`-1 << 63`). -/
def minDuration : Int := -9223372036854775808

/-- Conversion to `int64`: two's-complement wrap-around. -/
def wrapInt64 (x : Int) : Int := (x + 9223372036854775808) % 18446744073709551616 - 9223372036854775808

/-- Go `time.unixToInternal`: the seconds from year 1 to the Unix epoch. -/
def unixToInternal : Int := 62135596800

/-- Go `time.Unix(sec, 0)`: the instant is stored as `sec + unixToInternal` in an
`int64`. The argument is an `int64` and the constant is positive, so the sum
can leave the `int64` range only upwards, and then it wraps around by `2^64`:
the instant stored lies `2^64` seconds before `sec`. The seconds are kept
relative to the Unix epoch here, as everywhere in `Time`. -/
def timeUnix (sec : Int) : Time :=
  if sec + unixToInternal > 9223372036854775807 then ⟨sec - 18446744073709551616, 0⟩
  else ⟨sec, 0⟩

/-- Go `(t Time) Unix()`. -/
def Time.Unix (t : Time) : Int := t.sec

/-- Go `(t Time) Add(d)`: `/` truncates toward zero and `%` takes the sign of
the dividend; the nanosecond field is brought back into `[0, 1e9)`. -/
def Time.Add (t : Time) (d : Int) : Time :=
  let dsec := Int.tdiv d 1000000000
  let nsec := t.nsec + Int.tmod d 1000000000
  if nsec ≥ 1000000000 then ⟨t.sec + (dsec + 1), nsec - 1000000000⟩
  else if nsec < 0 then ⟨t.sec + (dsec - 1), nsec + 1000000000⟩
  else ⟨t.sec + dsec, nsec⟩

/-- Go `(t Time) Equal(u)`. -/
def Time.Equal (t u : Time) : Bool := t.sec == u.sec && t.nsec == u.nsec

/-- Go `(t Time) Before(u)`. -/
def Time.Before (t u : Time) : Bool :=
  decide (t.sec < u.sec) || (t.sec == u.sec && decide (t.nsec < u.nsec))

/-- Go `(t Time) Sub(u)` on wall-clock readings: the difference computed in
`int64`, replaced by `minDuration` or `maxDuration` when it does not fit. -/
def Time.Sub (t u : Time) : Int :=
  let d := wrapInt64 ((t.sec - u.sec) * 1000000000 + (t.nsec - u.nsec))
  if (u.Add d).Equal t then d
  else if t.Before u then minDuration
  else maxDuration

/-- The cutoff `main` passes to `Clean`: `time.Now().Add(-*ttl).Unix()`. -/
def mainCleanCutoff (now : Time) (ttl : Int) : Int := (now.Add (wrapInt64 (-ttl))).Unix

/-! ## `getOrRun` (`main.go`) -/

/-- The error of `execCommand`. -/
abbrev ExecError := String

/-- The lines `getOrRun` writes with the `log` package. -/
inductive LogLine where
  | noCachedResult
  | lookupFailed (val : GoString) (ts : Int) (err : GoError)
  | usingCachedResult (ts : Int)
  | foundExpiredResult (ts : Int)
  | runningExternalCommand
  | storingItem
  | cannotUpdateCache (err : GoError)
  | cannotRunCommand (err : ExecError)
deriving DecidableEq, Repr

/-- How a call of `getOrRun` ends. -/
inductive Exit where
  /-- `return nil` -/
  | returnedNil
  /-- `log.Fatalf`: the process exits with status 1 -/
  | fatal
  /-- a run-time panic -/
  | panicked
deriving DecidableEq, Repr

/-- Everything observable of one call of `getOrRun`. -/
structure Run where
  exit : Exit
  /-- the values passed to `fmt.Print`, in order -/
  stdout : List GoString
  log : List LogLine
  /-- the calls of `execCommand`: program and arguments -/
  executed : List (GoString × List GoString)
  /-- the number of calls of `SetItem` -/
  setItems : Nat
  /-- the database left behind -/
  db : DB
deriving DecidableEq, Repr

section GetOrRun

variable (IsPrint : Nat → Bool)

/-- Lines 137 to 154 of `main.go`: run the command, store and print its output.
`cmd[0]` panics on an empty slice. -/
def getOrRunExecute (dbh : Option sqlHandler) (db : DB) (cmd : StringSlice)
    (cmdString : GoString) (verbose : Bool) (nowSet : Int)
    (execCommand : GoString → List GoString → Except ExecError GoString)
    (log : List LogLine) : Run :=
  let log1 := if verbose then log ++ [.runningExternalCommand] else log
  match cmd with
  | none => ⟨.panicked, [], log1, [], 0, db⟩
  | some [] => ⟨.panicked, [], log1, [], 0, db⟩
  | some (c :: args) =>
    match execCommand c args with
    | .error err => ⟨.fatal, [], log1 ++ [.cannotRunCommand err], [(c, args)], 0, db⟩
    | .ok valBytes =>
      let val := valBytes
      let log2 := if verbose then log1 ++ [.storingItem] else log1
      match SetItem dbh db cmdString val nowSet with
      | (.panic, db1) => ⟨.panicked, [], log2, [(c, args)], 1, db1⟩
      | (.val (some err), db1) =>
        ⟨.returnedNil, [val], log2 ++ [.cannotUpdateCache err], [(c, args)], 1, db1⟩
      | (.val none, db1) => ⟨.returnedNil, [val], log2, [(c, args)], 1, db1⟩

/-- Lines 133 to 154 of `main.go`: `if getOnly { return nil }`, else execute. -/
def getOrRunMiss (dbh : Option sqlHandler) (db : DB) (cmd : StringSlice)
    (cmdString : GoString) (getOnly verbose : Bool) (nowSet : Int)
    (execCommand : GoString → List GoString → Except ExecError GoString)
    (log : List LogLine) : Run :=
  if getOnly then ⟨.returnedNil, [], log, [], 0, db⟩
  else getOrRunExecute dbh db cmd cmdString verbose nowSet execCommand log

/-- Go `getOrRun(dbh, cmd, ttl, getOnly, verbose)`. `now` is the reading of
`time.Now()` in the freshness test, `nowSet` the one of `time.Now().Unix()` in
`SetItem`, `execCommand` the external command runner. On a lookup error in
verbose mode the code evaluates `errors.Unwrap(err).Error()`, which panics when
`err` wraps nothing. -/
def getOrRun (dbh : Option sqlHandler) (db : DB) (cmd : StringSlice) (ttl : Int)
    (getOnly verbose : Bool) (now : Time) (nowSet : Int)
    (execCommand : GoString → List GoString → Except ExecError GoString) : Run :=
  let cmdString := SprintfSharpV IsPrint cmd
  match GetItem dbh db cmdString with
  | .panic => ⟨.panicked, [], [], [], 0, db⟩
  | .val (val, timestamp, some err) =>
    if verbose then
      match err.wrapped with
      | none => ⟨.panicked, [], [], [], 0, db⟩
      | some e =>
        getOrRunMiss dbh db cmd cmdString getOnly verbose nowSet execCommand
          (if stringsContains e.Error "no rows in result set" then [.noCachedResult]
           else [.lookupFailed val timestamp err])
    else getOrRunMiss dbh db cmd cmdString getOnly verbose nowSet execCommand []
  | .val (val, timestamp, none) =>
    if now.Sub (timeUnix timestamp) ≤ ttl then
      ⟨.returnedNil, [val], if verbose then [.usingCachedResult timestamp] else [], [], 0, db⟩
    else
      getOrRunMiss dbh db cmd cmdString getOnly verbose nowSet execCommand
        (if verbose then [.foundExpiredResult timestamp] else [])

end GetOrRun

/-! ## Concrete data for the examples -/

/-- Go `strconv.IsPrint` on Latin-1 (its table-free fast path); nothing beyond
`0xFF` is taken as printable. Used only to evaluate examples on ASCII text. -/
def IsPrintLatin1 (r : Nat) : Bool :=
  if r ≤ 0xFF then
    if 0x20 ≤ r ∧ r ≤ 0x7E then true
    else if 0xA1 ≤ r ∧ r ≤ 0xFF then r != 0xAD
    else false
  else false

/-- The command `echo hi`. -/
def echoHi : StringSlice := some [ascii "echo", ascii "hi"]

/-- The cache key of `echo hi`. -/
def echoHiKey : GoString := SprintfSharpV IsPrintLatin1 echoHi

/-- A command runner whose command always prints `new`. -/
def execNew : GoString → List GoString → Except ExecError GoString :=
  fun _ _ => .ok (ascii "new")

/-- A command runner whose command cannot be started. -/
def execFails : GoString → List GoString → Except ExecError GoString :=
  fun _ _ => .error "exec: not found"

/-! # Theorems -/

/-! ## Bit operations as arithmetic, and the UTF-8 round trip -/

theorem or_eq_add (k x y : Nat) (hx : x % 2 ^ k = 0) (hy : y < 2 ^ k) : x ||| y = x + y := by
  have h := Nat.mul_add_lt_is_or hy (x / 2 ^ k)
  have hx2 : 2 ^ k * (x / 2 ^ k) = x := by
    have := Nat.div_add_mod x (2 ^ k)
    omega
  rw [hx2] at h
  exact h.symm

theorem and_07 (x : Nat) : x &&& 0x07 = x % 8 := Nat.and_pow_two_sub_one_eq_mod x 3
theorem and_0F (x : Nat) : x &&& 0x0F = x % 16 := Nat.and_pow_two_sub_one_eq_mod x 4
theorem and_1F (x : Nat) : x &&& 0x1F = x % 32 := Nat.and_pow_two_sub_one_eq_mod x 5
theorem and_3F (x : Nat) : x &&& 0x3F = x % 64 := Nat.and_pow_two_sub_one_eq_mod x 6

theorem toByte_val (n : Nat) : (toByte n).val = n % 256 := rfl

theorem toByte_of_val (b : Byte) : toByte b.val = b := by
  apply Fin.ext
  rw [toByte_val]
  exact Nat.mod_eq_of_lt b.isLt

theorem byte_eq (n : Nat) (b : Byte) (h : n = b.val) : toByte n = b := by
  subst h; exact toByte_of_val b

/-- Two-byte encodings: encoding the decoded rune gives the bytes back. -/
theorem dec2 (s0 s1 : Byte) (h0 : 0xC2 ≤ s0.val ∧ s0.val ≤ 0xDF)
    (h1 : 0x80 ≤ s1.val ∧ s1.val ≤ 0xBF) :
    AppendRune ((s0.val &&& 0x1F) <<< 6 ||| (s1.val &&& 0x3F)) = [s0, s1] ∧
    0x80 ≤ ((s0.val &&& 0x1F) <<< 6 ||| (s1.val &&& 0x3F)) ∧
    ((s0.val &&& 0x1F) <<< 6 ||| (s1.val &&& 0x3F)) ≤ 0x7FF := by
  have hr : (s0.val &&& 0x1F) <<< 6 ||| (s1.val &&& 0x3F) = s0.val % 32 * 64 + s1.val % 64 := by
    rw [and_1F, and_3F, Nat.shiftLeft_eq]
    exact or_eq_add 6 _ _ (by omega) (by omega)
  rw [hr]
  generalize hrr : s0.val % 32 * 64 + s1.val % 64 = r
  have hlo : 0x80 ≤ r := by omega
  have hhi : r ≤ 0x7FF := by omega
  refine ⟨?_, hlo, hhi⟩
  unfold AppendRune
  rw [if_neg (by omega), if_pos hhi]
  have e1 : 0xC0 ||| (toByte (r >>> 6)).val = s0.val := by
    rw [toByte_val, Nat.shiftRight_eq_div_pow, or_eq_add 6 _ _ (by omega) (by omega)]
    omega
  have e2 : 0x80 ||| ((toByte r).val &&& 0x3F) = s1.val := by
    rw [toByte_val, and_3F, or_eq_add 6 _ _ (by omega) (by omega)]
    omega
  rw [e1, e2, toByte_of_val, toByte_of_val]

/-- Three-byte encodings: encoding the decoded rune gives the bytes back. -/
theorem dec3 (s0 s1 s2 : Byte) (h0 : 0xE0 ≤ s0.val ∧ s0.val ≤ 0xEF)
    (h1 : 0x80 ≤ s1.val ∧ s1.val ≤ 0xBF) (hE0 : s0.val = 0xE0 → 0xA0 ≤ s1.val)
    (hED : s0.val = 0xED → s1.val ≤ 0x9F) (h2 : 0x80 ≤ s2.val ∧ s2.val ≤ 0xBF) :
    AppendRune ((s0.val &&& 0x0F) <<< 12 ||| (s1.val &&& 0x3F) <<< 6 ||| (s2.val &&& 0x3F))
      = [s0, s1, s2] ∧
    0x800 ≤ ((s0.val &&& 0x0F) <<< 12 ||| (s1.val &&& 0x3F) <<< 6 ||| (s2.val &&& 0x3F)) ∧
    ((s0.val &&& 0x0F) <<< 12 ||| (s1.val &&& 0x3F) <<< 6 ||| (s2.val &&& 0x3F)) ≤ 0xFFFF ∧
    ¬ (0xD800 ≤ ((s0.val &&& 0x0F) <<< 12 ||| (s1.val &&& 0x3F) <<< 6 ||| (s2.val &&& 0x3F)) ∧
      ((s0.val &&& 0x0F) <<< 12 ||| (s1.val &&& 0x3F) <<< 6 ||| (s2.val &&& 0x3F)) ≤ 0xDFFF) := by
  have hr : (s0.val &&& 0x0F) <<< 12 ||| (s1.val &&& 0x3F) <<< 6 ||| (s2.val &&& 0x3F)
      = s0.val % 16 * 4096 + s1.val % 64 * 64 + s2.val % 64 := by
    rw [and_0F, and_3F, and_3F, Nat.shiftLeft_eq, Nat.shiftLeft_eq]
    rw [or_eq_add 12 (s0.val % 16 * 2 ^ 12) _ (by omega) (by omega)]
    exact or_eq_add 6 _ _ (by omega) (by omega)
  rw [hr]
  generalize hrr : s0.val % 16 * 4096 + s1.val % 64 * 64 + s2.val % 64 = r
  have hlo : 0x800 ≤ r := by omega
  have hhi : r ≤ 0xFFFF := by omega
  have hsur : ¬ (0xD800 ≤ r ∧ r ≤ 0xDFFF) := by omega
  refine ⟨?_, hlo, hhi, hsur⟩
  unfold AppendRune MaxRune surrogateMin surrogateMax
  simp only
  rw [if_neg (by omega), if_neg (by omega), if_pos (by omega), if_neg (by omega)]
  have e1 : 0xE0 ||| (toByte (r >>> 12)).val = s0.val := by
    rw [toByte_val, Nat.shiftRight_eq_div_pow, or_eq_add 5 _ _ (by omega) (by omega)]
    omega
  have e2 : 0x80 ||| ((toByte (r >>> 6)).val &&& 0x3F) = s1.val := by
    rw [toByte_val, Nat.shiftRight_eq_div_pow, and_3F, or_eq_add 6 _ _ (by omega) (by omega)]
    omega
  have e3 : 0x80 ||| ((toByte r).val &&& 0x3F) = s2.val := by
    rw [toByte_val, and_3F, or_eq_add 6 _ _ (by omega) (by omega)]
    omega
  rw [e1, e2, e3, toByte_of_val, toByte_of_val, toByte_of_val]

/-- Four-byte encodings: encoding the decoded rune gives the bytes back. -/
theorem dec4 (s0 s1 s2 s3 : Byte) (h0 : 0xF0 ≤ s0.val ∧ s0.val ≤ 0xF4)
    (h1 : 0x80 ≤ s1.val ∧ s1.val ≤ 0xBF) (hF0 : s0.val = 0xF0 → 0x90 ≤ s1.val)
    (hF4 : s0.val = 0xF4 → s1.val ≤ 0x8F) (h2 : 0x80 ≤ s2.val ∧ s2.val ≤ 0xBF)
    (h3 : 0x80 ≤ s3.val ∧ s3.val ≤ 0xBF) :
    AppendRune ((s0.val &&& 0x07) <<< 18 ||| (s1.val &&& 0x3F) <<< 12 |||
        (s2.val &&& 0x3F) <<< 6 ||| (s3.val &&& 0x3F)) = [s0, s1, s2, s3] ∧
    0x10000 ≤ ((s0.val &&& 0x07) <<< 18 ||| (s1.val &&& 0x3F) <<< 12 |||
        (s2.val &&& 0x3F) <<< 6 ||| (s3.val &&& 0x3F)) ∧
    ((s0.val &&& 0x07) <<< 18 ||| (s1.val &&& 0x3F) <<< 12 |||
        (s2.val &&& 0x3F) <<< 6 ||| (s3.val &&& 0x3F)) ≤ 0x10FFFF := by
  have hr : (s0.val &&& 0x07) <<< 18 ||| (s1.val &&& 0x3F) <<< 12 |||
        (s2.val &&& 0x3F) <<< 6 ||| (s3.val &&& 0x3F)
      = s0.val % 8 * 262144 + s1.val % 64 * 4096 + s2.val % 64 * 64 + s3.val % 64 := by
    rw [and_07, and_3F, and_3F, and_3F, Nat.shiftLeft_eq, Nat.shiftLeft_eq, Nat.shiftLeft_eq]
    rw [or_eq_add 18 (s0.val % 8 * 2 ^ 18) _ (by omega) (by omega)]
    rw [or_eq_add 12 (s0.val % 8 * 2 ^ 18 + s1.val % 64 * 2 ^ 12) _ (by omega) (by omega)]
    exact or_eq_add 6 _ _ (by omega) (by omega)
  rw [hr]
  generalize hrr : s0.val % 8 * 262144 + s1.val % 64 * 4096 + s2.val % 64 * 64 + s3.val % 64 = r
  have hlo : 0x10000 ≤ r := by omega
  have hhi : r ≤ 0x10FFFF := by omega
  refine ⟨?_, hlo, hhi⟩
  unfold AppendRune MaxRune surrogateMin surrogateMax
  simp only
  rw [if_neg (by omega), if_neg (by omega), if_neg (by omega)]
  have e1 : 0xF0 ||| (toByte (r >>> 18)).val = s0.val := by
    rw [toByte_val, Nat.shiftRight_eq_div_pow, or_eq_add 4 _ _ (by omega) (by omega)]
    omega
  have e2 : 0x80 ||| ((toByte (r >>> 12)).val &&& 0x3F) = s1.val := by
    rw [toByte_val, Nat.shiftRight_eq_div_pow, and_3F, or_eq_add 6 _ _ (by omega) (by omega)]
    omega
  have e3 : 0x80 ||| ((toByte (r >>> 6)).val &&& 0x3F) = s2.val := by
    rw [toByte_val, Nat.shiftRight_eq_div_pow, and_3F, or_eq_add 6 _ _ (by omega) (by omega)]
    omega
  have e4 : 0x80 ||| ((toByte r).val &&& 0x3F) = s3.val := by
    rw [toByte_val, and_3F, or_eq_add 6 _ _ (by omega) (by omega)]
    omega
  rw [e1, e2, e3, e4, toByte_of_val, toByte_of_val, toByte_of_val, toByte_of_val]

/-! ## The reader undoes each step of the quoting loop -/

theorem unq_quote (X : List Byte) : unquoteBody .normal (0x22 :: X) = some ([], X) := rfl

theorem unq_raw1 (b : Byte) (X : List Byte) (h1 : b ≠ 0x22) (h2 : b ≠ 0x5C) :
    unquoteBody .normal (b :: X) = (unquoteBody .normal X).map (fun p => (b :: p.1, p.2)) := by
  show (if b = 0x22 then _ else if b = 0x5C then _ else _) = _
  rw [if_neg h1, if_neg h2]

theorem unq_raw (chunk : List Byte) (X : List Byte) (h : ∀ b ∈ chunk, 0x80 ≤ b.val) :
    unquoteBody .normal (chunk ++ X)
      = (unquoteBody .normal X).map (fun p => (chunk ++ p.1, p.2)) := by
  induction chunk with
  | nil => simp
  | cons b t ih =>
    have hb : 0x80 ≤ b.val := h b (List.mem_cons_self _ _)
    have h1 : b ≠ 0x22 := by intro e; rw [e] at hb; revert hb; decide
    have h2 : b ≠ 0x5C := by intro e; rw [e] at hb; revert hb; decide
    rw [List.cons_append, unq_raw1 _ _ h1 h2, ih (fun x hx => h x (List.mem_cons_of_mem _ hx))]
    cases unquoteBody .normal X <;> rfl

theorem unq_esc (c : Byte) (X : List Byte)
    (h1 : c ≠ 0x78) (h2 : c ≠ 0x75) (h3 : c ≠ 0x55) :
    unquoteBody .normal (0x5C :: c :: X)
      = (unquoteBody .normal X).map (fun p => (unescapeChar c :: p.1, p.2)) := by
  show (if c = 0x78 then _ else if c = 0x75 then _ else if c = 0x55 then _ else _) = _
  rw [if_neg h1, if_neg h2, if_neg h3]

theorem unq_x (h1 h2 : Byte) (X : List Byte) :
    unquoteBody .normal (0x5C :: 0x78 :: h1 :: h2 :: X)
      = (unquoteBody .normal X).map
          (fun p => ([toByte ((0 * 16 + hexval h1) * 16 + hexval h2)] ++ p.1, p.2)) := rfl

theorem unq_u (h1 h2 h3 h4 : Byte) (X : List Byte) :
    unquoteBody .normal (0x5C :: 0x75 :: h1 :: h2 :: h3 :: h4 :: X)
      = (unquoteBody .normal X).map (fun p =>
          (AppendRune ((((0 * 16 + hexval h1) * 16 + hexval h2) * 16 + hexval h3) * 16
            + hexval h4) ++ p.1, p.2)) := rfl

theorem unq_U (h1 h2 h3 h4 h5 h6 h7 h8 : Byte) (X : List Byte) :
    unquoteBody .normal
        (0x5C :: 0x55 :: h1 :: h2 :: h3 :: h4 :: h5 :: h6 :: h7 :: h8 :: X)
      = (unquoteBody .normal X).map (fun p =>
          (AppendRune ((((((((0 * 16 + hexval h1) * 16 + hexval h2) * 16 + hexval h3) * 16
            + hexval h4) * 16 + hexval h5) * 16 + hexval h6) * 16 + hexval h7) * 16
            + hexval h8) ++ p.1, p.2)) := rfl

theorem hexval_lowerhex (i : Nat) (h : i < 16) : hexval (lowerhex i) = i := by
  interval_cases i <;> decide

/-- The two digits of `\x` denote the byte. -/
theorem hex2_byte (b : Byte) :
    toByte ((0 * 16 + hexval (lowerhex (b.val >>> 4))) * 16 + hexval (lowerhex (b.val &&& 0xF)))
      = b := by
  have hb := b.isLt
  apply byte_eq
  rw [Nat.shiftRight_eq_div_pow, and_0F, hexval_lowerhex _ (by omega),
    hexval_lowerhex _ (by omega)]
  omega

/-- The four digits of `\u` denote the rune. -/
theorem hex4_rune (r : Nat) (h : r < 0x10000) :
    (((0 * 16 + hexval (lowerhex (r >>> 12 &&& 0xF))) * 16 + hexval (lowerhex (r >>> 8 &&& 0xF)))
      * 16 + hexval (lowerhex (r >>> 4 &&& 0xF))) * 16 + hexval (lowerhex (r >>> 0 &&& 0xF))
      = r := by
  simp only [Nat.shiftRight_eq_div_pow, and_0F]
  rw [hexval_lowerhex _ (by omega), hexval_lowerhex _ (by omega), hexval_lowerhex _ (by omega),
    hexval_lowerhex _ (by omega)]
  omega

/-- The eight digits of `\U` denote the rune. -/
theorem hex8_rune (r : Nat) (h : r < 0x100000000) :
    (((((((0 * 16 + hexval (lowerhex (r >>> 28 &&& 0xF))) * 16
      + hexval (lowerhex (r >>> 24 &&& 0xF))) * 16 + hexval (lowerhex (r >>> 20 &&& 0xF))) * 16
      + hexval (lowerhex (r >>> 16 &&& 0xF))) * 16 + hexval (lowerhex (r >>> 12 &&& 0xF))) * 16
      + hexval (lowerhex (r >>> 8 &&& 0xF))) * 16 + hexval (lowerhex (r >>> 4 &&& 0xF))) * 16
      + hexval (lowerhex (r >>> 0 &&& 0xF)) = r := by
  simp only [Nat.shiftRight_eq_div_pow, and_0F]
  rw [hexval_lowerhex _ (by omega), hexval_lowerhex _ (by omega), hexval_lowerhex _ (by omega),
    hexval_lowerhex _ (by omega), hexval_lowerhex _ (by omega), hexval_lowerhex _ (by omega),
    hexval_lowerhex _ (by omega), hexval_lowerhex _ (by omega)]
  omega

theorem AppendRune_ascii (r : Nat) (h : r < 0x80) : AppendRune r = [toByte r] := by
  unfold AppendRune
  rw [if_pos (by omega)]

theorem toByte_ne (r : Nat) (c : Byte) (h : r < 256) (hc : r ≠ c.val) : toByte r ≠ c := by
  intro e
  apply hc
  rw [← e, toByte_val]
  omega

/-- The reader turns what `appendEscapedRune` writes for a decoded rune back into
the rune's encoding. -/
theorem unq_escaped (IsPrint : Nat → Bool) (r : Nat) (X : List Byte)
    (hv : ValidRune r = true) (hb : r < 0x80 ∨ ∀ b ∈ AppendRune r, 0x80 ≤ b.val) :
    unquoteBody .normal (escapedRune IsPrint r ++ X)
      = (unquoteBody .normal X).map (fun p => (AppendRune r ++ p.1, p.2)) := by
  have hmax : r ≤ 0x10FFFF := by
    unfold ValidRune surrogateMin surrogateMax MaxRune at hv
    simp only [Bool.or_eq_true, Bool.and_eq_true, decide_eq_true_eq] at hv
    omega
  unfold escapedRune
  by_cases hq : r = 0x22 ∨ r = 0x5C
  · rw [if_pos hq]
    rcases hq with rfl | rfl <;> rfl
  rw [if_neg hq]
  by_cases hp : IsPrint r = true
  · rw [if_pos hp]
    rcases hb with hb | hb
    · rw [AppendRune_ascii r hb]
      exact unq_raw1 _ _ (toByte_ne r _ (by omega) (by simpa using fun e => hq (Or.inl e)))
        (toByte_ne r _ (by omega) (by simpa using fun e => hq (Or.inr e)))
    · exact unq_raw _ _ hb
  rw [if_neg hp]
  by_cases h7 : r = 0x07
  · subst h7; rfl
  rw [if_neg h7]
  by_cases h8 : r = 0x08
  · subst h8; rfl
  rw [if_neg h8]
  by_cases hC : r = 0x0C
  · subst hC; rfl
  rw [if_neg hC]
  by_cases hA : r = 0x0A
  · subst hA; rfl
  rw [if_neg hA]
  by_cases hD : r = 0x0D
  · subst hD; rfl
  rw [if_neg hD]
  by_cases h9 : r = 0x09
  · subst h9; rfl
  rw [if_neg h9]
  by_cases hB : r = 0x0B
  · subst hB; rfl
  rw [if_neg hB]
  by_cases hx : r < 0x20 ∨ r = 0x7F
  · rw [if_pos hx, AppendRune_ascii r (by omega)]
    show unquoteBody .normal (0x5C :: 0x78 :: _ :: _ :: X) = _
    rw [unq_x, hex2_byte]
  rw [if_neg hx]
  simp only [hv, Bool.not_true, Bool.false_eq_true, if_false, false_or]
  by_cases hs : r < 0x10000
  · rw [if_pos hs]
    show unquoteBody .normal (0x5C :: 0x75 :: _ :: _ :: _ :: _ :: X) = _
    rw [unq_u, hex4_rune r hs]
  · rw [if_neg hs]
    show unquoteBody .normal (0x5C :: 0x55 :: _ :: _ :: _ :: _ :: _ :: _ :: _ :: _ :: X) = _
    rw [unq_U, hex8_rune r (by omega)]

set_option maxRecDepth 100000 in
theorem first_invalid : ∀ b : Byte, 0x80 ≤ b.val → (b.val < 0xC2 ∨ 0xF4 < b.val) →
    first b.val = 0xF1 := by decide

set_option maxRecDepth 100000 in
theorem first_valid : ∀ b : Byte, 0xC2 ≤ b.val → b.val ≤ 0xF4 →
    first b.val < 0xF0 ∧
    (first b.val &&& 7) = (if b.val < 0xE0 then 2 else if b.val < 0xF0 then 3 else 4) ∧
    acceptRanges (first b.val >>> 4) =
      (if b.val = 0xE0 then 0xA0 else if b.val = 0xF0 then 0x90 else 0x80,
       if b.val = 0xED then 0x9F else if b.val = 0xF4 then 0x8F else 0xBF) := by decide

/-- What the decoder returns on a string starting with a non-ASCII byte: either
`(RuneError, 1)`, or a rune of width at least two whose encoding is the
prefix of that width. -/
theorem decode_cases (s0 : Byte) (tl : GoString) (h : 0x80 ≤ s0.val) :
    DecodeRuneInString (s0 :: tl) = (RuneError, 1) ∨
    ∃ r w rest, DecodeRuneInString (s0 :: tl) = (r, w) ∧ 2 ≤ w ∧
      s0 :: tl = AppendRune r ++ rest ∧ (s0 :: tl).drop w = rest ∧
      ValidRune r = true ∧ (∀ b ∈ AppendRune r, 0x80 ≤ b.val) := by
  by_cases hinv : s0.val < 0xC2 ∨ 0xF4 < s0.val
  · left
    unfold DecodeRuneInString
    simp only [first_invalid s0 h hinv]
    rfl
  obtain ⟨hx, hsz, hacc⟩ := first_valid s0 (by omega) (by omega)
  unfold DecodeRuneInString
  simp only
  rw [if_neg (by omega), hsz, hacc]
  rcases tl with _ | ⟨s1, t1⟩
  · left
    simp only [List.length_singleton]
    split_ifs <;> rfl
  simp only
  by_cases hlen : (s0 :: s1 :: t1).length <
      (if s0.val < 0xE0 then 2 else if s0.val < 0xF0 then 3 else 4)
  · left; rw [if_pos hlen]
  rw [if_neg hlen]
  by_cases h1 : s1.val < (if s0.val = 0xE0 then 0xA0 else if s0.val = 0xF0 then 0x90 else 0x80) ∨
      (if s0.val = 0xED then 0x9F else if s0.val = 0xF4 then 0x8F else 0xBF) < s1.val
  · left; rw [if_pos h1]
  rw [if_neg h1]
  have h1lo : 0x80 ≤ s1.val := by
    by_contra hc; apply h1; left; split_ifs <;> omega
  have h1hi : s1.val ≤ 0xBF := by
    by_contra hc; apply h1; right; split_ifs <;> omega
  by_cases c2 : s0.val < 0xE0
  · -- two bytes
    right
    obtain ⟨e, lo, hi⟩ := dec2 s0 s1 (by omega) ⟨h1lo, h1hi⟩
    rw [if_pos c2, if_pos (le_refl 2)]
    refine ⟨_, 2, t1, rfl, le_refl 2, ?_, rfl, ?_, ?_⟩
    · rw [e]; rfl
    · unfold ValidRune surrogateMin surrogateMax MaxRune
      simp only [Bool.or_eq_true, Bool.and_eq_true, decide_eq_true_eq]
      omega
    · rw [e]
      intro b hb
      simp only [List.mem_cons, List.mem_singleton, List.not_mem_nil, or_false] at hb
      rcases hb with rfl | rfl <;> omega
  rw [if_neg c2] at hlen ⊢
  rcases t1 with _ | ⟨s2, t2⟩
  · exfalso; apply hlen; simp only [List.length_cons, List.length_nil]; split_ifs <;> omega
  by_cases c3 : s0.val < 0xF0
  · -- three bytes
    rw [if_pos c3, if_neg (by omega)]
    simp only
    by_cases h2 : s2.val < 0x80 ∨ 0xBF < s2.val
    · left; rw [if_pos h2]
    rw [if_neg h2, if_pos (le_refl 3)]
    right
    obtain ⟨e, lo, hi, hsur⟩ := dec3 s0 s1 s2 (by omega) ⟨h1lo, h1hi⟩
      (by intro e0; by_contra hc; apply h1; left; rw [if_pos e0]; omega)
      (by intro e0; by_contra hc; apply h1; right; rw [if_pos e0]; omega) (by omega)
    refine ⟨_, 3, t2, rfl, by omega, ?_, rfl, ?_, ?_⟩
    · rw [e]; rfl
    · unfold ValidRune surrogateMin surrogateMax MaxRune
      simp only [Bool.or_eq_true, Bool.and_eq_true, decide_eq_true_eq]
      omega
    · rw [e]
      intro b hb
      simp only [List.mem_cons, List.mem_singleton, List.not_mem_nil, or_false] at hb
      rcases hb with rfl | rfl | rfl <;> omega
  -- four bytes
  rw [if_neg c3] at hlen ⊢
  rw [if_neg (by omega)]
  simp only
  by_cases h2 : s2.val < 0x80 ∨ 0xBF < s2.val
  · left; rw [if_pos h2]
  rw [if_neg h2, if_neg (by omega)]
  rcases t2 with _ | ⟨s3, t3⟩
  · exfalso; apply hlen; simp only [List.length_cons, List.length_nil]; omega
  simp only
  by_cases h3 : s3.val < 0x80 ∨ 0xBF < s3.val
  · left; rw [if_pos h3]
  rw [if_neg h3]
  right
  obtain ⟨e, lo, hi⟩ := dec4 s0 s1 s2 s3 (by omega) ⟨h1lo, h1hi⟩
    (by intro e0; by_contra hc; apply h1; left
        rw [if_neg (by omega), if_pos e0]; omega)
    (by intro e0; by_contra hc; apply h1; right
        rw [if_neg (by omega), if_pos e0]; omega) (by omega) (by omega)
  refine ⟨_, 4, t3, rfl, by omega, ?_, rfl, ?_, ?_⟩
  · rw [e]; rfl
  · unfold ValidRune surrogateMin surrogateMax MaxRune
    simp only [Bool.or_eq_true, Bool.and_eq_true, decide_eq_true_eq]
    omega
  · rw [e]
    intro b hb
    simp only [List.mem_cons, List.mem_singleton, List.not_mem_nil, or_false] at hb
    rcases hb with rfl | rfl | rfl | rfl <;> omega

theorem quoteLoop_buf (IsPrint : Nat → Bool) (fuel : Nat) :
    ∀ (buf s : GoString), quoteLoop IsPrint fuel buf s = buf ++ quoteLoop IsPrint fuel [] s := by
  induction fuel with
  | zero => intro buf s; simp [quoteLoop]
  | succ n ih =>
    intro buf s
    cases s with
    | nil => simp [quoteLoop]
    | cons s0 tl =>
      unfold quoteLoop
      simp only
      generalize (if s0.val ≥ RuneSelf then DecodeRuneInString (s0 :: tl) else (s0.val, 1)) = rw
      split_ifs
      · rw [ih (buf ++ [0x5C, 0x78, lowerhex (s0.val >>> 4), lowerhex (s0.val &&& 0xF)]),
          ih ([] ++ [0x5C, 0x78, lowerhex (s0.val >>> 4), lowerhex (s0.val &&& 0xF)])]
        simp only [List.append_assoc, List.nil_append]
      · rw [ih (appendEscapedRune IsPrint buf rw.1), ih (appendEscapedRune IsPrint [] rw.1)]
        simp only [appendEscapedRune, List.append_assoc, List.nil_append]

/-- One turn of the quoting loop on an ASCII byte. -/
theorem quoteLoop_ascii (IsPrint : Nat → Bool) (n : Nat) (s0 : Byte) (tl : GoString)
    (h : s0.val < 0x80) :
    quoteLoop IsPrint (n + 1) [] (s0 :: tl)
      = escapedRune IsPrint s0.val ++ quoteLoop IsPrint n [] tl := by
  have hne : ¬ (s0.val = RuneError) := by unfold RuneError; omega
  rw [quoteLoop]
  simp only [RuneSelf, ge_iff_le, if_neg (show ¬ 0x80 ≤ s0.val by omega), hne, and_false,
    if_false, List.drop_succ_cons, List.drop_zero]
  rw [quoteLoop_buf, appendEscapedRune, List.nil_append]

/-- One turn of the quoting loop on a byte that does not start a valid encoding. -/
theorem quoteLoop_invalid (IsPrint : Nat → Bool) (n : Nat) (s0 : Byte) (tl : GoString)
    (h : 0x80 ≤ s0.val) (hd : DecodeRuneInString (s0 :: tl) = (RuneError, 1)) :
    quoteLoop IsPrint (n + 1) [] (s0 :: tl)
      = 0x5C :: 0x78 :: lowerhex (s0.val >>> 4) :: lowerhex (s0.val &&& 0xF)
          :: quoteLoop IsPrint n [] tl := by
  rw [quoteLoop]
  simp only [RuneSelf, ge_iff_le, if_pos h, hd, and_self, if_true,
    List.drop_succ_cons, List.drop_zero, List.nil_append]
  rw [quoteLoop_buf]
  rfl

/-- One turn of the quoting loop on a valid multi-byte encoding. -/
theorem quoteLoop_valid (IsPrint : Nat → Bool) (n : Nat) (s0 : Byte) (tl : GoString)
    (h : 0x80 ≤ s0.val) (r w : Nat) (hd : DecodeRuneInString (s0 :: tl) = (r, w)) (hw : 2 ≤ w) :
    quoteLoop IsPrint (n + 1) [] (s0 :: tl)
      = escapedRune IsPrint r ++ quoteLoop IsPrint n [] ((s0 :: tl).drop w) := by
  have hne : ¬ (w = 1 ∧ r = RuneError) := by omega
  rw [quoteLoop]
  simp only [RuneSelf, ge_iff_le, if_pos h, hd, if_neg hne]
  rw [quoteLoop_buf, appendEscapedRune, List.nil_append]

/-- The reader recovers the string from what the quoting loop wrote, and stops
right after the closing quote. -/
theorem unq_quoteLoop (IsPrint : Nat → Bool) (n : Nat) :
    ∀ (s : GoString) (rest : List Byte), s.length ≤ n →
      unquoteBody .normal (quoteLoop IsPrint n [] s ++ 0x22 :: rest) = some (s, rest) := by
  induction n with
  | zero =>
    intro s rest h
    have : s = [] := List.length_eq_zero.mp (Nat.le_zero.mp h)
    subst this
    rfl
  | succ n ih =>
    intro s rest h
    cases s with
    | nil => rfl
    | cons s0 tl =>
      have htl : tl.length ≤ n := by simpa using h
      by_cases ha : s0.val < 0x80
      · rw [quoteLoop_ascii IsPrint n s0 tl ha, List.append_assoc,
          unq_escaped IsPrint s0.val _ (by
            unfold ValidRune surrogateMin
            simp only [Bool.or_eq_true, decide_eq_true_eq]
            left; omega) (Or.inl ha),
          ih tl rest htl, AppendRune_ascii _ ha, toByte_of_val]
        rfl
      · have hge : 0x80 ≤ s0.val := by omega
        rcases decode_cases s0 tl hge with hd | ⟨r, w, rest1, hd, hw, hs, hdrop, hv, hb⟩
        · rw [quoteLoop_invalid IsPrint n s0 tl hge hd]
          rw [List.cons_append, List.cons_append, List.cons_append, List.cons_append,
            unq_x, hex2_byte, ih tl rest htl]
          rfl
        · have hlen : rest1.length ≤ n := by
            rw [← hdrop, List.length_drop]
            simp only [List.length_cons] at h ⊢
            omega
          rw [quoteLoop_valid IsPrint n s0 tl hge r w hd hw, hdrop, List.append_assoc,
            unq_escaped IsPrint r _ hv (Or.inr hb), ih rest1 rest hlen, hs]
          rfl

/-- A quoted string followed by anything determines the string and what follows. -/
theorem appendQuotedWith_inj (IsPrint : Nat → Bool) (s1 s2 : GoString) (r1 r2 : List Byte)
    (h : appendQuotedWith IsPrint [] s1 ++ r1 = appendQuotedWith IsPrint [] s2 ++ r2) :
    s1 = s2 ∧ r1 = r2 := by
  unfold appendQuotedWith at h
  rw [quoteLoop_buf, quoteLoop_buf IsPrint s2.length] at h
  simp only [List.nil_append, List.cons_append, List.append_assoc, List.singleton_append,
    List.cons.injEq, true_and] at h
  have e1 := unq_quoteLoop IsPrint s1.length s1 r1 (le_refl _)
  have e2 := unq_quoteLoop IsPrint s2.length s2 r2 (le_refl _)
  rw [h, e2] at e1
  simp only [Option.some.injEq, Prod.mk.injEq] at e1
  exact ⟨e1.1.symm, e1.2.symm⟩

theorem appendQuotedWith_buf (IsPrint : Nat → Bool) (buf s : GoString) :
    appendQuotedWith IsPrint buf s = buf ++ appendQuotedWith IsPrint [] s := by
  unfold appendQuotedWith
  rw [quoteLoop_buf, quoteLoop_buf IsPrint s.length ([] ++ _)]
  simp

theorem appendQuotedWith_head (IsPrint : Nat → Bool) (s : GoString) :
    ∃ t, appendQuotedWith IsPrint [] s = 0x22 :: t := by
  unfold appendQuotedWith
  rw [quoteLoop_buf]
  exact ⟨_, rfl⟩

theorem printElems_buf (IsPrint : Nat → Bool) (l : List GoString) :
    ∀ (buf : GoString) (i : Nat),
      printElems IsPrint buf i l = buf ++ printElems IsPrint [] i l := by
  induction l with
  | nil => intro buf i; simp [printElems]
  | cons e t ih =>
    intro buf i
    unfold printElems
    rw [ih (appendQuotedWith IsPrint _ e), ih (appendQuotedWith IsPrint (if i > 0 then _ else _) e),
      appendQuotedWith_buf IsPrint (if i > 0 then buf ++ _ else buf),
      appendQuotedWith_buf IsPrint (if i > 0 then [] ++ _ else [])]
    split_ifs <;> simp

/-- The elements written from index `i` on, closed by a brace, determine the list. -/
theorem printElems_inj (IsPrint : Nat → Bool) (l1 : List GoString) :
    ∀ (l2 : List GoString) (i : Nat),
      printElems IsPrint [] i l1 ++ ascii "\x7d" = printElems IsPrint [] i l2 ++ ascii "\x7d" →
      l1 = l2 := by
  have hbrace : ascii "\x7d" = [0x7D] := by decide
  have hcomma : ascii ", " = [0x2C, 0x20] := by decide
  have hstep : ∀ (e : GoString) (t : List GoString) (i : Nat),
      printElems IsPrint [] i (e :: t) ++ ascii "\x7d" =
        (if i > 0 then [0x2C, 0x20] else []) ++
          (appendQuotedWith IsPrint [] e ++ (printElems IsPrint [] (i + 1) t ++ ascii "\x7d")) := by
    intro e t i
    rw [printElems, printElems_buf, appendQuotedWith_buf, hcomma]
    split_ifs <;> simp
  have hne : ∀ (e : GoString) (t : List GoString) (i : Nat),
      printElems IsPrint [] i (e :: t) ++ ascii "\x7d" ≠ ascii "\x7d" := by
    intro e t i hc
    rw [hstep, hbrace] at hc
    obtain ⟨q, hq⟩ := appendQuotedWith_head IsPrint e
    rw [hq] at hc
    split_ifs at hc <;> simp at hc
  induction l1 with
  | nil =>
    intro l2 i h
    cases l2 with
    | nil => rfl
    | cons e t => 
      exfalso
      apply hne e t i
      rw [← h]; simp [printElems]
  | cons e1 t1 ih =>
    intro l2 i h
    cases l2 with
    | nil =>
      exfalso
      apply hne e1 t1 i
      rw [h]; simp [printElems]
    | cons e2 t2 =>
      rw [hstep, hstep] at h
      have h2 := List.append_cancel_left h
      obtain ⟨he, hr⟩ := appendQuotedWith_inj IsPrint e1 e2 _ _ h2
      rw [he, ih t2 (i + 1) hr]

/-- The quoting loop never runs out of fuel: `len(s)` turns are enough, and more
turns change nothing. -/
theorem quoteLoop_fuel (IsPrint : Nat → Bool) (n : Nat) :
    ∀ (s : GoString) (k : Nat), s.length ≤ n →
      quoteLoop IsPrint (n + k) [] s = quoteLoop IsPrint n [] s := by
  induction n with
  | zero =>
    intro s k h
    have : s = [] := List.length_eq_zero.mp (Nat.le_zero.mp h)
    subst this
    cases k <;> rfl
  | succ n ih =>
    intro s k h
    cases s with
    | nil => rw [show n + 1 + k = (n + k) + 1 by omega]; rfl
    | cons s0 tl =>
      have htl : tl.length ≤ n := by simpa using h
      rw [show n + 1 + k = (n + k) + 1 by omega]
      by_cases ha : s0.val < 0x80
      · rw [quoteLoop_ascii IsPrint (n + k) s0 tl ha, quoteLoop_ascii IsPrint n s0 tl ha,
          ih tl k htl]
      · have hge : 0x80 ≤ s0.val := by omega
        rcases decode_cases s0 tl hge with hd | ⟨r, w, rest1, hd, hw, _, hdrop, _, _⟩
        · rw [quoteLoop_invalid IsPrint (n + k) s0 tl hge hd,
            quoteLoop_invalid IsPrint n s0 tl hge hd, ih tl k htl]
        · have hlen : rest1.length ≤ n := by
            rw [← hdrop, List.length_drop]
            simp only [List.length_cons] at h ⊢
            omega
          rw [quoteLoop_valid IsPrint (n + k) s0 tl hge r w hd hw,
            quoteLoop_valid IsPrint n s0 tl hge r w hd hw, hdrop, ih rest1 k hlen]

/-- C1 (cache key): the key `fmt.Sprintf("%#v", cmd)` is an injective function of
the argument vector, whatever the table behind `strconv.IsPrint`: two vectors
have the same key exactly when they are the same vector (a nil slice and an
empty one being different vectors); in particular `["ab","c"]` and `["a","bc"]`,
and `["a","b c"]` and `["a","b","c"]`, have different keys. -/
theorem cache_key_injective (IsPrint : Nat → Bool) :
    (∀ A B : StringSlice, SprintfSharpV IsPrint A = SprintfSharpV IsPrint B ↔ A = B) ∧
    SprintfSharpV IsPrint (some [ascii "ab", ascii "c"])
      ≠ SprintfSharpV IsPrint (some [ascii "a", ascii "bc"]) ∧
    SprintfSharpV IsPrint (some [ascii "a", ascii "b c"])
      ≠ SprintfSharpV IsPrint (some [ascii "a", ascii "b", ascii "c"]) := by
  have hnil : ∀ l : List GoString,
      SprintfSharpV IsPrint none ≠ SprintfSharpV IsPrint (some l) := by
    intro l h
    unfold SprintfSharpV at h
    simp only at h
    rw [printElems_buf, List.append_assoc, List.append_assoc] at h
    have h2 := List.append_cancel_left h
    have e1 : ascii "(nil)" = 0x28 :: ascii "nil)" := by decide
    have e2 : ascii "\x7b" = [0x7B] := by decide
    rw [e1, e2] at h2
    simp only [List.singleton_append, List.cons.injEq] at h2
    exact absurd h2.1 (by decide)
  have hinj : ∀ A B : StringSlice,
      SprintfSharpV IsPrint A = SprintfSharpV IsPrint B ↔ A = B := by
    intro A B
    constructor
    · intro h
      cases A with
      | none =>
        cases B with
        | none => rfl
        | some l => exact absurd h (hnil l)
      | some l1 =>
        cases B with
        | none => exact absurd h.symm (hnil l1)
        | some l2 =>
          unfold SprintfSharpV at h
          simp only at h
          rw [printElems_buf, printElems_buf IsPrint l2] at h
          simp only [List.append_assoc] at h
          rw [printElems_inj IsPrint l1 l2 0
            (List.append_cancel_left (List.append_cancel_left h))]
    · intro h; rw [h]
  refine ⟨hinj, ?_, ?_⟩
  · intro h
    have := (hinj _ _).mp h
    revert this; decide
  · intro h
    have := (hinj _ _).mp h
    revert this; decide

/-! ## Facts about the SQL statements -/

theorem stringsContains_unique (e : SqlError) :
    stringsContains e.Error "UNIQUE constraint failed" = decide (e = .uniqueConstraint) := by
  cases e <;> decide

theorem stringsContains_noRows (e : SqlError) :
    stringsContains e.Error "no rows in result set" = decide (e = .noRows) := by
  cases e <;> decide

theorem updRow_id (item value : GoString) (ts : Int) (r : Row) :
    (updRow item value ts r).id = r.id := by
  unfold updRow; split <;> rfl

theorem map_updRow_ids (item value : GoString) (ts : Int) (rows : List Row) :
    (rows.map (updRow item value ts)).map Row.id = rows.map Row.id := by
  induction rows with
  | nil => rfl
  | cons r t ih => simp [updRow_id, ih]

theorem map_updRow_absent (item value : GoString) (ts : Int) (rows : List Row)
    (h : rows.any (fun r => r.id == item) = false) :
    rows.map (updRow item value ts) = rows := by
  induction rows with
  | nil => rfl
  | cons r t ih =>
    simp only [List.any_cons, Bool.or_eq_false_iff] at h
    simp [updRow, h.1, ih h.2]

theorem filter_other_map_updRow (item value : GoString) (ts : Int) (rows : List Row) :
    (rows.map (updRow item value ts)).filter (fun r => r.id != item)
      = rows.filter (fun r => r.id != item) := by
  induction rows with
  | nil => rfl
  | cons r t ih =>
    by_cases h : r.id = item
    · simp [updRow, h, ih]
    · simp [updRow, h, ih]

theorem filter_key_absent (item : GoString) (rows : List Row)
    (h : rows.any (fun r => r.id == item) = false) :
    rows.filter (fun r => r.id == item) = [] := by
  induction rows with
  | nil => rfl
  | cons r t ih =>
    simp only [List.any_cons, Bool.or_eq_false_iff] at h
    simp [h.1, ih h.2]

theorem filter_key_map_updRow (item value : GoString) (ts : Int) (rows : List Row)
    (hpk : (rows.map Row.id).Nodup) (h : rows.any (fun r => r.id == item) = true) :
    (rows.map (updRow item value ts)).filter (fun r => r.id == item) = [⟨item, value, ts⟩] := by
  induction rows with
  | nil => simp at h
  | cons r t ih =>
    simp only [List.map_cons, List.nodup_cons] at hpk
    by_cases hr : r.id = item
    · have hno : t.any (fun r => r.id == item) = false := by
        rw [List.any_eq_false]
        intro x hx hxi
        apply hpk.1
        rw [hr]
        have : x.id = item := by simpa using hxi
        rw [← this]
        exact List.mem_map_of_mem _ hx
      rw [List.map_cons, map_updRow_absent item value ts t hno]
      simp [updRow, hr, filter_key_absent item t hno]
    · have ht : t.any (fun r => r.id == item) = true := by
        simpa [hr] using h
      simp [updRow, hr, ih hpk.2 ht]

theorem length_filter_pos_of_any (item : GoString) (rows : List Row)
    (h : rows.any (fun r => r.id == item) = true) :
    ((rows.filter (fun r => r.id == item)).length == 0) = false := by
  induction rows with
  | nil => simp at h
  | cons r t ih =>
    by_cases hr : r.id = item
    · simp [hr]
    · have ht : t.any (fun r => r.id == item) = true := by simpa [hr] using h
      simpa [hr] using ih ht

/-- What `SetItem` does on an open store whose table exists. -/
theorem SetItem_open_table (rows : List Row) (item value : GoString) (ts : Int) :
    SetItem openStore (.table rows) item value ts =
      (.val none,
        .table (if rows.any (fun r => r.id == item) then rows.map (updRow item value ts)
                else rows ++ [⟨item, value, ts⟩])) := by
  by_cases h : rows.any (fun r => r.id == item) = true
  · have hn := length_filter_pos_of_any item rows h
    simp [SetItem, openStore, prepare, execInsert, h, stringsContains_unique,
      execUpdate, hn]
  · simp [SetItem, openStore, prepare, execInsert, h]

/-- C3 (insert-then-update): on an open store whose table satisfies the primary
key, `SetItem(k, v1)` followed by `SetItem(k, v2)` both return no error and
leave exactly one row with id `k`, holding `v2` and the second call's
timestamp; the rows of other keys are unchanged and the ids stay unique. -/
theorem SetItem_twice_one_row (rows : List Row) (k v1 v2 : GoString) (t1 t2 : Int)
    (hpk : (rows.map Row.id).Nodup) :
    (SetItem openStore (.table rows) k v1 t1).1 = .val none ∧
    (SetItem openStore (SetItem openStore (.table rows) k v1 t1).2 k v2 t2).1 = .val none ∧
    ∃ rows2, (SetItem openStore (SetItem openStore (.table rows) k v1 t1).2 k v2 t2).2
        = .table rows2 ∧
      rows2.filter (fun r => r.id == k) = [⟨k, v2, t2⟩] ∧
      rows2.filter (fun r => r.id != k) = rows.filter (fun r => r.id != k) ∧
      (rows2.map Row.id).Nodup := by
  rw [SetItem_open_table rows k v1 t1]
  by_cases h : rows.any (fun r => r.id == k) = true
  · simp only [h, if_true]
    have h1 : (rows.map (updRow k v1 t1)).any (fun r => r.id == k) = true := by
      have := map_updRow_ids k v1 t1 rows
      rw [List.any_eq_true] at h ⊢
      obtain ⟨x, hx, hxk⟩ := h
      exact ⟨updRow k v1 t1 x, List.mem_map_of_mem _ hx, by simpa [updRow_id] using hxk⟩
    have hpk1 : ((rows.map (updRow k v1 t1)).map Row.id).Nodup := by
      rw [map_updRow_ids]; exact hpk
    rw [SetItem_open_table]
    simp only [h1, if_true]
    refine ⟨trivial, trivial, _, rfl, ?_, ?_, ?_⟩
    · exact filter_key_map_updRow k v2 t2 _ hpk1 h1
    · rw [filter_other_map_updRow, filter_other_map_updRow]
    · rw [map_updRow_ids]; exact hpk1
  · have h0 : rows.any (fun r => r.id == k) = false := by simpa using h
    simp only [h0, Bool.false_eq_true, if_false]
    have h1 : (rows ++ [(⟨k, v1, t1⟩ : Row)]).any (fun r => r.id == k) = true := by simp
    have hpk1 : ((rows ++ [(⟨k, v1, t1⟩ : Row)]).map Row.id).Nodup := by
      rw [List.map_append, List.nodup_append]
      refine ⟨hpk, by simp, ?_⟩
      intro a ha hb
      simp only [List.map_cons, List.map_nil, List.mem_singleton] at hb
      rw [List.mem_map] at ha
      obtain ⟨x, hx, hxa⟩ := ha
      rw [List.any_eq_false] at h0
      exact h0 x hx (by simp [hxa, hb])
    rw [SetItem_open_table]
    simp only [h1, if_true]
    refine ⟨trivial, trivial, _, rfl, ?_, ?_, ?_⟩
    · exact filter_key_map_updRow k v2 t2 _ hpk1 h1
    · rw [filter_other_map_updRow]; simp
    · rw [map_updRow_ids]; exact hpk1

/-- C3 at a table of two rows, one of them with the key. -/
theorem SetItem_twice_one_row_witness :
    ([⟨ascii "a", ascii "x", 1⟩, ⟨ascii "k", ascii "y", 2⟩].map Row.id).Nodup ∧
    (SetItem openStore (.table [⟨ascii "a", ascii "x", 1⟩, ⟨ascii "k", ascii "y", 2⟩])
      (ascii "k") (ascii "v1") 10).1 = .val none :=
  ⟨by decide,
   (SetItem_twice_one_row [⟨ascii "a", ascii "x", 1⟩, ⟨ascii "k", ascii "y", 2⟩]
      (ascii "k") (ascii "v1") (ascii "v2") 10 20 (by decide)).1⟩

/-- C4 (expiry): on an open store, `Clean(c)` returns no error and leaves the
table filtered to the rows with `timestamp ≥ c`, in their order and unchanged:
a row is in the result exactly when it was in the table with `timestamp ≥ c`,
and as often as before; with `k1` at 100 and `k2` at 200, `Clean(150)` removes
`k1` and keeps `k2`; with no row older than `c` the table is left as it was. -/
theorem Clean_keeps_exactly_recent (rows : List Row) (c : Int) :
    (∃ rows1, Clean openStore (.table rows) c = (.val none, .table rows1) ∧
      rows1.Sublist rows ∧
      (∀ r, r ∈ rows1 ↔ (r ∈ rows ∧ c ≤ r.timestamp)) ∧
      (∀ r, c ≤ r.timestamp → rows1.count r = rows.count r) ∧
      (∀ r, r.timestamp < c → rows1.count r = 0) ∧
      ((∀ r ∈ rows, c ≤ r.timestamp) → rows1 = rows)) ∧
    (∀ k1 k2 v : GoString,
      Clean openStore (.table [⟨k1, v, 100⟩, ⟨k2, v, 200⟩]) 150
        = (.val none, .table [⟨k2, v, 200⟩])) := by
  refine ⟨⟨rows.filter (fun r => !decide (r.timestamp < c)), rfl, List.filter_sublist _,
    ?_, ?_, ?_, ?_⟩, ?_⟩
  · intro r
    simp [List.mem_filter]
  · intro r hr
    rw [List.count_filter]
    simpa using hr
  · intro r hr
    rw [List.count_eq_zero]
    intro hmem
    have := (List.mem_filter.mp hmem).2
    simp at this
    omega
  · intro h
    rw [List.filter_eq_self]
    intro r hr
    simpa using h r hr
  · intro k1 k2 v
    simp [Clean, openStore, execDeleteOlder]

/-- C9 (initialisation): on a usable database file `dbCreate` returns no error
and leaves an existing, empty `cache` table, whether the table was absent or
present with any rows; run again on its own result it again returns no error
and leaves the same state. -/
theorem dbCreate_idempotent (db : DB) (h : db ≠ .unusable) :
    dbCreate db = (none, .table []) ∧
    dbCreate (dbCreate db).2 = (none, .table []) ∧
    dbCreate (dbCreate db).2 = dbCreate db := by
  cases db with
  | unusable => exact absurd rfl h
  | noTable => exact ⟨rfl, rfl, rfl⟩
  | table rows => exact ⟨rfl, rfl, rfl⟩

/-- C9 at a database whose table holds one row. -/
theorem dbCreate_idempotent_witness :
    DB.table [⟨ascii "k", ascii "v", 7⟩] ≠ .unusable ∧
    dbCreate (.table [⟨ascii "k", ascii "v", 7⟩]) = (none, .table []) :=
  ⟨by decide, (dbCreate_idempotent (.table [⟨ascii "k", ascii "v", 7⟩]) (by decide)).1⟩

theorem tmod_bounds (a : Int) :
    -1000000000 < Int.tmod a 1000000000 ∧ Int.tmod a 1000000000 < 1000000000 ∧
    (0 ≤ a → 0 ≤ Int.tmod a 1000000000) ∧ (a ≤ 0 → Int.tmod a 1000000000 ≤ 0) := by
  have hlt := Int.tmod_lt_of_pos a (show (0 : Int) < 1000000000 by decide)
  have hneg : Int.tmod (-a) 1000000000 = -Int.tmod a 1000000000 := by
    rw [Int.tmod_def, Int.tmod_def, Int.neg_tdiv]; ring
  have hlt2 := Int.tmod_lt_of_pos (-a) (show (0 : Int) < 1000000000 by decide)
  refine ⟨by omega, hlt, fun h => Int.tmod_nonneg _ h, fun h => ?_⟩
  have := Int.tmod_nonneg (1000000000 : Int) (show 0 ≤ -a by omega)
  omega

theorem timeUnix_wf (T : Int) : (timeUnix T).wf := by
  unfold Time.wf timeUnix
  split_ifs <;> constructor <;> simp

/-- On an `int64` argument `time.Unix` stores the wrapped sum. -/
theorem timeUnix_int64 (T : Int) (h0 : -9223372036854775808 ≤ T)
    (h1 : T ≤ 9223372036854775807) :
    timeUnix T = ⟨wrapInt64 (T + unixToInternal) - unixToInternal, 0⟩ := by
  unfold timeUnix wrapInt64 unixToInternal
  split_ifs with h
  · congr 1; omega
  · congr 1; omega

/-- A timestamp that `time.Unix` stores without wrap-around. -/
theorem timeUnix_of_le (T : Int) (h : T + unixToInternal ≤ 9223372036854775807) :
    timeUnix T = ⟨T, 0⟩ := by
  unfold timeUnix
  rw [if_neg (by omega)]

/-- The instant `time.Unix` stores is never after the timestamp. -/
theorem timeUnix_sec_le (T : Int) : (timeUnix T).sec ≤ T ∧ (timeUnix T).nsec = 0 := by
  unfold timeUnix
  split_ifs <;> constructor <;> simp

/-- The method `Add` moves the instant by exactly `d` nanoseconds and keeps it well formed. -/
theorem Time.Add_spec (t : Time) (d : Int) (ht : t.wf) :
    (t.Add d).wf ∧ (t.Add d).sec * 1000000000 + (t.Add d).nsec
      = t.sec * 1000000000 + t.nsec + d := by
  obtain ⟨h1, h2, _, _⟩ := tmod_bounds d
  have h3 := Int.tmod_add_tdiv d 1000000000
  unfold Time.wf at ht ⊢
  unfold Time.Add
  simp only
  split_ifs <;> simp only <;> omega

/-- The method `Sub` gives the exact difference in nanoseconds, clamped to the `int64` range. -/
theorem Time.Sub_spec (t u : Time) (ht : t.wf) (hu : u.wf) :
    t.Sub u =
      if (t.sec - u.sec) * 1000000000 + (t.nsec - u.nsec) > maxDuration then maxDuration
      else if (t.sec - u.sec) * 1000000000 + (t.nsec - u.nsec) < minDuration then minDuration
      else (t.sec - u.sec) * 1000000000 + (t.nsec - u.nsec) := by
  obtain ⟨hw, htot⟩ := Time.Add_spec u
    (wrapInt64 ((t.sec - u.sec) * 1000000000 + (t.nsec - u.nsec))) hu
  unfold Time.wf at ht hu hw
  unfold Time.Sub
  simp only [Time.Equal, Time.Before, maxDuration, minDuration] at *
  generalize u.Add (wrapInt64 ((t.sec - u.sec) * 1000000000 + (t.nsec - u.nsec))) = a at *
  unfold wrapInt64 at *
  by_cases hE : a.sec = t.sec ∧ a.nsec = t.nsec
  · have : (a.sec == t.sec && a.nsec == t.nsec) = true := by simp [hE]
    rw [if_pos this]
    split_ifs <;> omega
  · have : ¬ ((a.sec == t.sec && a.nsec == t.nsec) = true) := by simpa using hE
    rw [if_neg this]
    have hne : (t.sec - u.sec) * 1000000000 + (t.nsec - u.nsec) > 9223372036854775807 ∨
        (t.sec - u.sec) * 1000000000 + (t.nsec - u.nsec) < -9223372036854775808 := by
      by_contra hcon
      apply hE
      constructor <;> omega
    by_cases hB : t.sec < u.sec ∨ (t.sec = u.sec ∧ t.nsec < u.nsec)
    · have : (decide (t.sec < u.sec) || (t.sec == u.sec && decide (t.nsec < u.nsec))) = true := by
        simpa using hB
      rw [if_pos this]
      split_ifs <;> omega
    · have : ¬ ((decide (t.sec < u.sec) || (t.sec == u.sec && decide (t.nsec < u.nsec))) = true) := by
        simpa using hB
      rw [if_neg this]
      split_ifs <;> omega

/-- The cutoff is the floor, in whole seconds, of `now - ttl`. -/
theorem mainCleanCutoff_spec (now : Time) (ttl : Int) (hn : now.wf)
    (h0 : minDuration < ttl) (h1 : ttl ≤ maxDuration) :
    mainCleanCutoff now ttl * 1000000000 ≤ now.sec * 1000000000 + now.nsec - ttl ∧
    now.sec * 1000000000 + now.nsec - ttl < (mainCleanCutoff now ttl + 1) * 1000000000 := by
  obtain ⟨hw, htot⟩ := Time.Add_spec now (wrapInt64 (-ttl)) hn
  unfold mainCleanCutoff Time.Unix
  unfold Time.wf at hw
  unfold wrapInt64 maxDuration minDuration at *
  generalize now.Add ((-ttl + 9223372036854775808) % 18446744073709551616 - 9223372036854775808) = a at *
  omega

theorem queryRow_map_updRow (item value : GoString) (ts : Int) (rows : List Row)
    (h : rows.any (fun r => r.id == item) = true) :
    queryRow (rows.map (updRow item value ts)) item = .ok (value, ts) := by
  induction rows with
  | nil => simp at h
  | cons r t ih =>
    by_cases hr : r.id = item
    · simp [queryRow, updRow, hr]
    · have ht : t.any (fun r => r.id == item) = true := by simpa [hr] using h
      have hb : ((updRow item value ts r).id == item) = false := by
        simp [updRow_id, hr]
      have := ih ht
      unfold queryRow at this ⊢
      rw [List.map_cons, List.find?_cons, hb]
      exact this

theorem GetItem_found (db : DB) (item v : GoString) (T : Int)
    (h : GetItem openStore db item = .val (v, T, none)) :
    ∃ rows, db = .table rows ∧ rows.any (fun r => r.id == item) = true := by
  cases db with
  | unusable => simp [GetItem, openStore, prepare] at h
  | noTable => simp [GetItem, openStore, prepare] at h
  | table rows =>
    refine ⟨rows, rfl, ?_⟩
    simp only [GetItem, openStore, prepare, queryRow] at h
    cases hf : rows.find? (fun r => r.id == item) with
    | none => simp [hf] at h
    | some r =>
      rw [List.any_eq_true]
      have hp := List.find?_some hf
      exact ⟨r, List.mem_of_find?_eq_some hf, hp⟩

/-- C2, as stated, fails: the entry has timestamp `T = 100`, the TTL is
`D = 120` seconds and the clock reads second `T + D = 220` (plus one nanosecond),
yet the lookup is not a hit: the command is executed and the entry refreshed. -/
theorem lookup_in_second_T_plus_D_is_stale :
    (Time.mk 220 1).wf ∧ (Time.mk 220 1).Unix = 100 + 120 ∧
    getOrRun IsPrintLatin1 openStore (.table [⟨echoHiKey, ascii "old", 100⟩]) echoHi
        (120 * 1000000000) false false (Time.mk 220 1) 220 execNew
      = ⟨.returnedNil, [ascii "new"], [], [(ascii "echo", [ascii "hi"])], 1,
          .table [⟨echoHiKey, ascii "new", 220⟩]⟩ := by decide

/-- C2, amended (freshness boundary at nanosecond resolution): for a stored
entry `(v, T)` whose timestamp `time.Unix` stores without wrap-around
(`T + 62135596800 ≤ 2^63 - 1`) and a TTL of `D` whole seconds, `getOrRun`
serves the entry from the cache (prints `v`, runs nothing, leaves the store as
it was) exactly when `time.Now().Sub(time.Unix(T, 0)) ≤ ttl`, which holds
exactly for the instants up to `T + D` seconds and zero nanoseconds; at every
later instant, so in all of second `T + D + 1`, the entry is stale, and with
`getOnly` false and a command that succeeds the command is executed, its
output printed and the entry refreshed with the output and the time of the
store. -/
theorem freshness_boundary (IsPrint : Nat → Bool) (db : DB) (cmd : StringSlice)
    (v : GoString) (T D ttl : Int) (getOnly verbose : Bool) (now : Time) (nowSet : Int)
    (execCommand : GoString → List GoString → Except ExecError GoString)
    (hrow : GetItem openStore db (SprintfSharpV IsPrint cmd) = .val (v, T, none))
    (hT : T + unixToInternal ≤ 9223372036854775807)
    (httl : ttl = D * 1000000000) (hmin : minDuration ≤ ttl) (hmax : ttl ≤ maxDuration)
    (hn : now.wf) :
    (((getOrRun IsPrint openStore db cmd ttl getOnly verbose now nowSet execCommand).stdout = [v] ∧
      (getOrRun IsPrint openStore db cmd ttl getOnly verbose now nowSet execCommand).executed = [] ∧
      (getOrRun IsPrint openStore db cmd ttl getOnly verbose now nowSet execCommand).exit
        = .returnedNil ∧
      (getOrRun IsPrint openStore db cmd ttl getOnly verbose now nowSet execCommand).db = db)
        ↔ now.Sub (timeUnix T) ≤ ttl) ∧
    (now.Sub (timeUnix T) ≤ ttl ↔ (now.sec < T + D ∨ (now.sec = T + D ∧ now.nsec = 0))) ∧
    (now.Unix = T + D + 1 → ¬ now.Sub (timeUnix T) ≤ ttl) ∧
    (∀ c args out, ¬ now.Sub (timeUnix T) ≤ ttl → getOnly = false → cmd = some (c :: args) →
      execCommand c args = .ok out →
      (getOrRun IsPrint openStore db cmd ttl getOnly verbose now nowSet execCommand).executed
        = [(c, args)] ∧
      (getOrRun IsPrint openStore db cmd ttl getOnly verbose now nowSet execCommand).stdout
        = [out] ∧
      GetItem openStore
        (getOrRun IsPrint openStore db cmd ttl getOnly verbose now nowSet execCommand).db
        (SprintfSharpV IsPrint cmd) = .val (out, nowSet, none)) := by
  have hsub := Time.Sub_spec now (timeUnix T) hn (timeUnix_wf T)
  have hP2 : now.Sub (timeUnix T) ≤ ttl ↔ (now.sec < T + D ∨ (now.sec = T + D ∧ now.nsec = 0)) := by
    rw [hsub, timeUnix_of_le T hT]
    unfold Time.wf at hn
    unfold minDuration at hmin
    unfold maxDuration at hmax ⊢
    unfold minDuration
    simp only
    subst httl
    split_ifs <;> omega
  obtain ⟨rows, hdb, hany⟩ := GetItem_found db _ v T hrow
  refine ⟨?_, hP2, ?_, ?_⟩
  · by_cases hf : now.Sub (timeUnix T) ≤ ttl
    · simp [getOrRun, hrow, hf]
    · simp only [getOrRun, hrow, hf, if_false, iff_false]
      unfold getOrRunMiss getOrRunExecute
      cases getOnly
      · rcases cmd with _ | _ | ⟨c, args⟩
        · simp
        · simp
        · simp only [Bool.false_eq_true, if_false]
          cases execCommand c args with
          | error e => simp
          | ok out =>
            simp only
            split <;> simp
      · simp
  · intro hu
    rw [hP2]
    unfold Time.wf at hn
    unfold Time.Unix at hu
    omega
  · intro c args out hf hg hc he
    subst hg hc hdb
    simp only [getOrRun, hrow, hf, if_false, getOrRunMiss, getOrRunExecute, he,
      Bool.false_eq_true, SetItem_open_table, hany, if_true]
    refine ⟨trivial, trivial, ?_⟩
    simp only [GetItem, openStore, prepare, queryRow_map_updRow _ _ _ _ hany]

/-- C2, amended, at `T = 100`, `D = 120` and the instant 220 s exactly. -/
theorem freshness_boundary_witness :
    GetItem openStore (.table [⟨echoHiKey, ascii "old", 100⟩])
        (SprintfSharpV IsPrintLatin1 echoHi) = .val (ascii "old", 100, none) ∧
    (100 : Int) + unixToInternal ≤ 9223372036854775807 ∧
    (120000000000 : Int) = 120 * 1000000000 ∧ minDuration ≤ 120000000000 ∧
    120000000000 ≤ maxDuration ∧ (Time.mk 220 0).wf ∧
    ((Time.mk 220 0).Sub (timeUnix 100) ≤ 120000000000
      ↔ ((Time.mk 220 0).sec < 100 + 120 ∨
          ((Time.mk 220 0).sec = 100 + 120 ∧ (Time.mk 220 0).nsec = 0))) :=
  ⟨by decide, by decide, by decide, by decide, by decide, by decide,
   (freshness_boundary IsPrintLatin1 (.table [⟨echoHiKey, ascii "old", 100⟩]) echoHi
      (ascii "old") 100 120 120000000000 false false (Time.mk 220 0) 220 execNew
      (by decide) (by decide) (by decide) (by decide) (by decide) (by decide)).2.1⟩

/-- Outside the range of timestamps stored without wrap-around: a timestamp that
wraps around in `time.Unix` (`T = 2^63 - 1`) is stored as an instant `2^64` seconds earlier, so
at the start of the year 2000 and a TTL of 120 s its age saturates at
`maxDuration` and the entry is found expired: the command is executed. -/
theorem lookup_of_wrapped_timestamp_is_stale :
    getOrRun IsPrintLatin1 openStore
        (.table [⟨echoHiKey, ascii "old", 9223372036854775807⟩]) echoHi
        (120 * 1000000000) false true (Time.mk 946684800 0) 946684800 execNew
      = ⟨.returnedNil, [ascii "new"],
          [.foundExpiredResult 9223372036854775807, .runningExternalCommand, .storingItem],
          [(ascii "echo", [ascii "hi"])], 1,
          .table [⟨echoHiKey, ascii "new", 946684800⟩]⟩ := by decide

/-- C10, as stated, fails at the largest TTL: with `ttl = maxDuration` the age
of an entry older than that saturates at `maxDuration`, so `getOrRun` judges the
entry fresh and prints it, while the cutoff `main` computes at the same instant
lies after the entry's timestamp and `Clean` deletes the row. -/
theorem clean_deletes_entry_served_at_max_ttl :
    (Time.mk 1700000000 0).wf ∧ (0 : Int) ≤ maxDuration ∧
    (Time.mk 1700000000 0).Sub (timeUnix (-7523372038)) ≤ maxDuration ∧
    ¬ (-7523372038 ≥ mainCleanCutoff (Time.mk 1700000000 0) maxDuration) ∧
    getOrRun IsPrintLatin1 openStore (.table [⟨echoHiKey, ascii "old", -7523372038⟩]) echoHi
        maxDuration false false (Time.mk 1700000000 0) 1700000000 execNew
      = ⟨.returnedNil, [ascii "old"], [], [], 0,
          .table [⟨echoHiKey, ascii "old", -7523372038⟩]⟩ ∧
    Clean openStore (.table [⟨echoHiKey, ascii "old", -7523372038⟩])
        (mainCleanCutoff (Time.mk 1700000000 0) maxDuration)
      = (.val none, .table []) := by decide

/-- C10, amended (the sweep spares what a lookup serves, below the largest
TTL): for every instant `now`, every TTL with `0 ≤ ttl < maxDuration` and every
timestamp `T`, if `getOrRun` judges the entry fresh,
`now.Sub(time.Unix(T, 0)) ≤ ttl`, then the cutoff `main` passes to `Clean` at
that instant is at most `T`, and `Clean` with that cutoff succeeds and keeps
every row whose timestamp is `T`. -/
theorem fresh_entry_survives_clean (now : Time) (ttl T : Int) (hn : now.wf)
    (h0 : 0 ≤ ttl) (h1 : ttl < maxDuration) (hfresh : now.Sub (timeUnix T) ≤ ttl) :
    T ≥ mainCleanCutoff now ttl ∧
    ∀ (rows : List Row) (r : Row), r ∈ rows → r.timestamp = T →
      ∃ rows1, Clean openStore (.table rows) (mainCleanCutoff now ttl) = (.val none, .table rows1) ∧
        r ∈ rows1 := by
  have hsub := Time.Sub_spec now (timeUnix T) hn (timeUnix_wf T)
  have hcut := mainCleanCutoff_spec now ttl hn (by unfold minDuration; omega) (le_of_lt h1)
  obtain ⟨hle, hns⟩ := timeUnix_sec_le T
  have hT : T ≥ mainCleanCutoff now ttl := by
    rw [hsub, hns] at hfresh
    unfold Time.wf at hn
    unfold maxDuration at h1 hfresh
    unfold minDuration at hfresh
    generalize mainCleanCutoff now ttl = cut at *
    generalize (timeUnix T).sec = us at *
    split_ifs at hfresh <;> omega
  refine ⟨hT, fun rows r hr hrT => ⟨_, rfl, ?_⟩⟩
  rw [List.mem_filter]
  refine ⟨hr, ?_⟩
  simp only [Bool.not_eq_true', decide_eq_false_iff_not]
  omega

/-- C10, amended, at a TTL of two minutes and an entry 100 s old. -/
theorem fresh_entry_survives_clean_witness :
    (Time.mk 1700000100 500).wf ∧ (0 : Int) ≤ 120000000000 ∧ (120000000000 : Int) < maxDuration ∧
    (Time.mk 1700000100 500).Sub (timeUnix 1700000000) ≤ 120000000000 ∧
    (1700000000 : Int) ≥ mainCleanCutoff (Time.mk 1700000100 500) 120000000000 :=
  ⟨by decide, by decide, by decide, by decide,
   (fresh_entry_survives_clean (Time.mk 1700000100 500) 120000000000 1700000000
      (by decide) (by decide) (by decide) (by decide)).1⟩

/-- C5 (get-only): with a nil handler (the lookup fails with `no DB file`) and
`getOnly` set, `getOrRun` returns nil and prints nothing when `verbose` is
unset, but panics at `errors.Unwrap(err).Error()` when `verbose` is set. For
every handler and either value of `verbose`, a get-only call executes no
command, never calls `SetItem` and leaves the store as it was; it returns nil
unless it panics, which happens only on a closed handler or on a nil handler
in verbose mode; and it prints nothing unless the lookup found a fresh entry,
whose value it prints. -/
theorem getOnly_nil_store_verbose_panics (IsPrint : Nat → Bool) (db : DB) (cmd : StringSlice)
    (ttl : Int) (now : Time) (nowSet : Int)
    (execCommand : GoString → List GoString → Except ExecError GoString) :
    getOrRun IsPrint none db cmd ttl true true now nowSet execCommand
      = ⟨.panicked, [], [], [], 0, db⟩ ∧
    getOrRun IsPrint none db cmd ttl true false now nowSet execCommand
      = ⟨.returnedNil, [], [], [], 0, db⟩ ∧
    ∀ (dbh : Option sqlHandler) (verbose : Bool),
      (getOrRun IsPrint dbh db cmd ttl true verbose now nowSet execCommand).executed = [] ∧
      (getOrRun IsPrint dbh db cmd ttl true verbose now nowSet execCommand).setItems = 0 ∧
      (getOrRun IsPrint dbh db cmd ttl true verbose now nowSet execCommand).db = db ∧
      ((getOrRun IsPrint dbh db cmd ttl true verbose now nowSet execCommand).exit = .returnedNil ∨
        ((getOrRun IsPrint dbh db cmd ttl true verbose now nowSet execCommand).exit = .panicked ∧
          (dbh = some ⟨none⟩ ∨ (dbh = none ∧ verbose = true)))) ∧
      ((getOrRun IsPrint dbh db cmd ttl true verbose now nowSet execCommand).stdout = [] ∨
        ∃ v T, GetItem dbh db (SprintfSharpV IsPrint cmd) = .val (v, T, none) ∧
          now.Sub (timeUnix T) ≤ ttl ∧
          (getOrRun IsPrint dbh db cmd ttl true verbose now nowSet execCommand).stdout = [v]) := by
  refine ⟨rfl, rfl, fun dbh verbose => ?_⟩
  rcases dbh with _ | ⟨_ | c⟩
  · cases verbose <;> simp [getOrRun, getOrRunMiss, GetItem, errorf]
  · simp [getOrRun, GetItem]
  · cases db with
    | unusable => cases verbose <;> simp [getOrRun, getOrRunMiss, GetItem, prepare, errorfW]
    | noTable => cases verbose <;> simp [getOrRun, getOrRunMiss, GetItem, prepare, errorfW]
    | table rows =>
      cases hq : queryRow rows (SprintfSharpV IsPrint cmd) with
      | error e =>
        cases verbose <;> simp [getOrRun, getOrRunMiss, GetItem, prepare, errorfW, hq]
      | ok vt =>
        obtain ⟨v, T⟩ := vt
        by_cases hf : now.Sub (timeUnix T) ≤ ttl
        · simp only [getOrRun, getOrRunMiss, GetItem, prepare, hq, hf, if_true]
          exact ⟨trivial, trivial, trivial, Or.inl trivial, Or.inr ⟨v, T, rfl, hf, rfl⟩⟩
        · simp [getOrRun, getOrRunMiss, GetItem, prepare, hq, hf]

/-- C6 (store unavailable): with a nil handler and `verbose` set, `getOrRun`
panics at `errors.Unwrap(err).Error()` before anything is executed or printed,
whatever `getOnly` is; with `verbose` unset the command is run and exactly its
output printed. -/
theorem nil_store_verbose_panics (IsPrint : Nat → Bool) (db : DB) (cmd : StringSlice)
    (ttl : Int) (getOnly : Bool) (now : Time) (nowSet : Int)
    (execCommand : GoString → List GoString → Except ExecError GoString) :
    getOrRun IsPrint none db cmd ttl getOnly true now nowSet execCommand
      = ⟨.panicked, [], [], [], 0, db⟩ ∧
    ∀ (c : GoString) (args : List GoString) (out : GoString),
      getOrRun IsPrint none db (some (c :: args)) ttl false false now nowSet (fun _ _ => .ok out)
        = ⟨.returnedNil, [out], [.cannotUpdateCache (errorf "no DB file")], [(c, args)], 1, db⟩ :=
  ⟨rfl, fun _ _ _ => rfl⟩

/-- C8 (execution failure): whenever a call of `getOrRun` runs the command and
`execCommand` returns an error, the call ends in `log.Fatalf`, has printed
nothing, has not called `SetItem` and leaves the store as it was. -/
theorem exec_failure_is_terminal (IsPrint : Nat → Bool) (dbh : Option sqlHandler) (db : DB)
    (cmd : StringSlice) (ttl : Int) (getOnly verbose : Bool) (now : Time) (nowSet : Int)
    (execCommand : GoString → List GoString → Except ExecError GoString)
    (c : GoString) (args : List GoString) (err : ExecError)
    (hreach : (c, args) ∈
      (getOrRun IsPrint dbh db cmd ttl getOnly verbose now nowSet execCommand).executed)
    (herr : execCommand c args = .error err) :
    (getOrRun IsPrint dbh db cmd ttl getOnly verbose now nowSet execCommand).exit = .fatal ∧
    (getOrRun IsPrint dbh db cmd ttl getOnly verbose now nowSet execCommand).stdout = [] ∧
    (getOrRun IsPrint dbh db cmd ttl getOnly verbose now nowSet execCommand).setItems = 0 ∧
    (getOrRun IsPrint dbh db cmd ttl getOnly verbose now nowSet execCommand).db = db ∧
    (getOrRun IsPrint dbh db cmd ttl getOnly verbose now nowSet execCommand).log.getLast?
      = some (.cannotRunCommand err) := by
  have key : ∀ log : List LogLine,
      (c, args) ∈ (getOrRunMiss dbh db cmd (SprintfSharpV IsPrint cmd) getOnly verbose nowSet
        execCommand log).executed →
      (getOrRunMiss dbh db cmd (SprintfSharpV IsPrint cmd) getOnly verbose nowSet
        execCommand log).exit = .fatal ∧
      (getOrRunMiss dbh db cmd (SprintfSharpV IsPrint cmd) getOnly verbose nowSet
        execCommand log).stdout = [] ∧
      (getOrRunMiss dbh db cmd (SprintfSharpV IsPrint cmd) getOnly verbose nowSet
        execCommand log).setItems = 0 ∧
      (getOrRunMiss dbh db cmd (SprintfSharpV IsPrint cmd) getOnly verbose nowSet
        execCommand log).db = db ∧
      (getOrRunMiss dbh db cmd (SprintfSharpV IsPrint cmd) getOnly verbose nowSet
        execCommand log).log.getLast? = some (.cannotRunCommand err) := by
    intro log
    unfold getOrRunMiss getOrRunExecute
    cases getOnly
    · rcases cmd with _ | _ | ⟨c1, args1⟩
      · simp
      · simp
      · simp only [Bool.false_eq_true, if_false]
        cases he : execCommand c1 args1 with
        | error e =>
          intro hm
          simp only [List.mem_singleton, Prod.mk.injEq] at hm
          obtain ⟨rfl, rfl⟩ := hm
          rw [he] at herr
          cases herr
          simp
        | ok out =>
          intro hm
          have hm2 : (c, args) = (c1, args1) := by
            revert hm
            simp only
            split <;> simp
          cases hm2
          rw [he] at herr
          cases herr
    · simp
  revert hreach
  unfold getOrRun
  simp only
  split
  · simp
  · split
    · split
      · simp
      · exact key _
    · exact key _
  · split
    · simp
    · exact key _

/-- C8 at a stale entry whose command cannot be started. -/
theorem exec_failure_is_terminal_witness :
    (ascii "echo", [ascii "hi"]) ∈
      (getOrRun IsPrintLatin1 openStore (.table [⟨echoHiKey, ascii "old", 100⟩]) echoHi
        (120 * 1000000000) false false (Time.mk 300 0) 300 execFails).executed ∧
    execFails (ascii "echo") [ascii "hi"] = .error "exec: not found" ∧
    (getOrRun IsPrintLatin1 openStore (.table [⟨echoHiKey, ascii "old", 100⟩]) echoHi
        (120 * 1000000000) false false (Time.mk 300 0) 300 execFails).exit = .fatal :=
  ⟨by decide, rfl,
   (exec_failure_is_terminal IsPrintLatin1 openStore (.table [⟨echoHiKey, ascii "old", 100⟩])
      echoHi (120 * 1000000000) false false (Time.mk 300 0) 300 execFails
      (ascii "echo") [ascii "hi"] "exec: not found" (by decide) rfl).1⟩

end Clic
